import Mathlib

/-!
# Verification of the gossipsub validator core (`src/validator.rs`)

Shallow embedding of the message-validation and peer-scoring pipeline.

Modelling conventions:
* `f64` scores and token counts become exact fractions (`FQ` below: an
  integer numerator over a positive natural denominator, interpreted into
  `ℚ` by `FQ.toRat`).  Every floating-point operation the code performs —
  sums and products of small half-integer constants — is exact in double
  precision, so exact rational arithmetic is a faithful model.  The
  fraction type is deliberately unnormalised so that all of its operations
  are structurally recursive and evaluate inside the kernel.
* `Instant` timestamps become an explicit `now : FQ` argument threaded into
  each call; `Instant::duration_since` saturates at zero, modelled by
  `max (now - last) 0`.
* `HashMap` becomes an insertion-ordered association list; iteration order
  (used by `ensure_peer_exists` to pick an eviction victim via
  `keys().next()`) is modelled as list order, i.e. FIFO over insertion,
  which the spec explicitly allows ("eviction policy may be arbitrary but
  deterministic for a given implementation — FIFO over insertion is
  acceptable").
* `HashSet` becomes a duplicate-free list.
* The SHA-256 dedupe key of `"gossipsub-v1.1:" ++ bytes` is modelled as an
  injective function of the input bytes (the identity on the byte list).
* The `.unwrap()` on the registry entry after `ensure_peer_exists` is
  modelled by an explicit `match`; the `none` arm returns a sentinel
  decision with reason `"unreachable_peer_missing"`, and unreachability of
  that arm is proved.
-/

namespace GossipValidator

/-! ## Exact fractions modelling `f64` -/

/-- Exact unnormalised fraction: model of the `f64` values the validator
computes with (scores, token counts, timestamps). -/
structure FQ where
  num : Int
  den : ℕ+
deriving DecidableEq, Repr

/-- Embed an integer. -/
def FQ.ofInt (n : Int) : FQ := ⟨n, 1⟩

/-- Denominator as an integer. -/
def FQ.denZ (a : FQ) : Int := ((a.den : ℕ) : Int)

/-- Addition of fractions. -/
def FQ.add (a b : FQ) : FQ := ⟨a.num * b.denZ + b.num * a.denZ, a.den * b.den⟩

/-- Multiplication of fractions. -/
def FQ.mul (a b : FQ) : FQ := ⟨a.num * b.num, a.den * b.den⟩

/-- Negation. -/
def FQ.neg (a : FQ) : FQ := ⟨-a.num, a.den⟩

/-- Subtraction. -/
def FQ.sub (a b : FQ) : FQ := a.add b.neg

/-- Order by cross multiplication. -/
def FQ.le (a b : FQ) : Prop := a.num * b.denZ ≤ b.num * a.denZ

/-- Strict order by cross multiplication. -/
def FQ.lt (a b : FQ) : Prop := a.num * b.denZ < b.num * a.denZ

instance : DecidablePred (fun p : FQ × FQ => FQ.le p.1 p.2) := fun _ => Int.decLe _ _

instance (a b : FQ) : Decidable (FQ.le a b) := Int.decLe _ _

instance (a b : FQ) : Decidable (FQ.lt a b) := Int.decLt _ _

/-- `f64::max`. -/
def FQ.fmax (a b : FQ) : FQ := if FQ.le a b then b else a

/-- Semantics of a fraction as a rational number. -/
def FQ.toRat (a : FQ) : ℚ := (a.num : ℚ) / ((a.den : ℕ) : ℚ)

/-! ## Constants and data (from validator.rs) -/

abbrev Peer := Nat
abbrev Bytes := List Nat

/-- `MAX_DEDUPE_SIZE` from validator.rs. -/
def MAX_DEDUPE_SIZE : Nat := 10000

/-- `TOKEN_BUCKET_CAPACITY` from validator.rs. -/
def TOKEN_BUCKET_CAPACITY : Nat := 100

/-- `TOKEN_REFILL_RATE` (tokens per second) from validator.rs. -/
def TOKEN_REFILL_RATE : FQ := FQ.ofInt 50

/-- `QUARANTINE_THRESHOLD` from validator.rs. -/
def QUARANTINE_THRESHOLD : FQ := FQ.ofInt (-90)

/-- `MAX_PEERS` from validator.rs. -/
def MAX_PEERS : Nat := 1000

structure ValidatorConfig where
  max_message_bytes : Nat
deriving DecidableEq, Repr

structure TokenBucket where
  capacity : Nat
  tokens : FQ
  last : FQ
deriving DecidableEq, Repr

/-- `TokenBucket::new` — full bucket, `last` set to the current instant. -/
def TokenBucket.new (now : FQ) : TokenBucket :=
  { capacity := TOKEN_BUCKET_CAPACITY
    tokens := FQ.ofInt (TOKEN_BUCKET_CAPACITY : Int)
    last := now }

/-- `TokenBucket::try_consume`: refill by elapsed wall time (saturating at
zero), clamp to capacity, then consume if enough tokens are available.
Returns the boolean outcome and the updated bucket (the bucket is mutated
in place in the source in both outcomes). -/
def TokenBucket.try_consume (b : TokenBucket) (now : FQ) (amount : Nat) :
    Bool × TokenBucket :=
  let elapsed := FQ.fmax (now.sub b.last) (FQ.ofInt 0)
  let t1 := b.tokens.add (elapsed.mul TOKEN_REFILL_RATE)
  let t2 := if FQ.lt (FQ.ofInt (b.capacity : Int)) t1 then FQ.ofInt (b.capacity : Int) else t1
  if FQ.le (FQ.ofInt (amount : Int)) t2 then
    (true, { capacity := b.capacity, tokens := t2.sub (FQ.ofInt (amount : Int)), last := now })
  else
    (false, { capacity := b.capacity, tokens := t2, last := now })

structure PeerState where
  score : FQ
  bucket : TokenBucket
  last_seq : Option Nat
  quarantined : Bool
deriving DecidableEq, Repr

/-- `PeerState::default` (the bucket records the creation instant). -/
def PeerState.default (now : FQ) : PeerState :=
  { score := FQ.ofInt 0, bucket := TokenBucket.new now, last_seq := none, quarantined := false }

inductive Acceptance where
  | Accept
  | Reject
  | Ignore
deriving DecidableEq, Repr

structure Decision where
  acceptance : Acceptance
  reason : String
  score_delta : FQ
deriving DecidableEq, Repr

/-- Wire message union as consumed by `Validator::validate`
(`Good { seq, payload }` and `Bad`). -/
inductive WireMessage where
  | Good (seq : Nat) (payload : List Nat)
  | Bad
deriving DecidableEq, Repr

/-- Little-endian 8-byte rendering of a natural number (u64). -/
def bytesLE8 (n : Nat) : List Nat :=
  (List.range 8).map (fun i => n / 256 ^ i % 256)

/-- Read back an 8-byte little-endian natural number. -/
def natOfLE8 (l : List Nat) : Nat :=
  l.foldr (fun b acc => b + 256 * acc) 0

/-- Modelled from the spec: `codec::encode` delegates to the external
`bincode` crate, which is not part of this repository; the spec requires
only a deterministic tagged binary encoding of the two variants.  We use a
one-byte tag followed by fixed-width seq and length fields. -/
def encode : WireMessage → Bytes
  | .Good seq payload => 0 :: bytesLE8 seq ++ bytesLE8 payload.length ++ payload
  | .Bad => [1]

/-- Modelled from the spec: `codec::decode` (external `bincode`
deserialisation); fails with a generic parse error on any byte sequence
that does not encode a valid variant. -/
def decode (b : Bytes) : Option WireMessage :=
  match b with
  | 1 :: rest => if rest = [] then some WireMessage.Bad else none
  | 0 :: rest =>
    if rest.length < 16 then none
    else
      let seq := natOfLE8 (rest.take 8)
      let lenB := natOfLE8 ((rest.drop 8).take 8)
      let payload := rest.drop 16
      if payload.length = lenB then some (WireMessage.Good seq payload) else none
  | _ => none

/-- SHA-256 of `"gossipsub-v1.1:" ++ bytes`, modelled as an injective
function of the input bytes. -/
def hashKey (bytes : Bytes) : Bytes := bytes

/-! ## Association-list model of `HashMap` -/

/-- `HashMap::get` — first binding of the key wins. -/
def alookup {α : Type} (k : Peer) : List (Peer × α) → Option α
  | [] => none
  | (k', v) :: rest => if k = k' then some v else alookup k rest

/-- In-place mutation of a present binding (`get_mut` followed by field
assignment); a no-op on an absent key. -/
def aupdate {α : Type} (k : Peer) (f : α → α) : List (Peer × α) → List (Peer × α)
  | [] => []
  | (k', v) :: rest => if k = k' then (k', f v) :: rest else (k', v) :: aupdate k f rest

/-- `HashMap::insert` — overwrite a present binding, otherwise add one. -/
def ainsert {α : Type} (k : Peer) (v : α) (m : List (Peer × α)) : List (Peer × α) :=
  if (alookup k m).isSome then aupdate k (fun _ => v) m else m ++ [(k, v)]

/-- `offences.entry(*peer).or_insert(0); *count += 1`. -/
def abump (k : Peer) (m : List (Peer × Nat)) : List (Peer × Nat) :=
  if (alookup k m).isSome then aupdate k (fun n => n + 1) m else m ++ [(k, 1)]

/-- `HashSet::insert` on a duplicate-free list. -/
def sinsert (k : Bytes) (s : List Bytes) : List Bytes :=
  if k ∈ s then s else k :: s

/-! ## The validator -/

structure Validator where
  cfg : ValidatorConfig
  peers : List (Peer × PeerState)
  dedupe_cache : List Bytes
  dedupe_set : List Bytes
  offences : List (Peer × Nat)
  app_scores : List (Peer × FQ)
deriving DecidableEq, Repr

/-- `Validator::new`. -/
def Validator.new (cfg : ValidatorConfig) : Validator :=
  { cfg := cfg, peers := [], dedupe_cache := [], dedupe_set := [],
    offences := [], app_scores := [] }

/-- `Validator::is_quarantined`. -/
def Validator.is_quarantined (v : Validator) (p : Peer) : Bool :=
  ((alookup p v.peers).map (fun st => st.quarantined)).getD false

/-- `Validator::get_peer_score` (exact fraction). -/
def Validator.get_peer_score (v : Validator) (p : Peer) : FQ :=
  ((alookup p v.peers).map (fun st => st.score)).getD (FQ.ofInt 0)

/-- `Validator::get_peer_score`, interpreted into `ℚ`. -/
def Validator.scoreQ (v : Validator) (p : Peer) : ℚ :=
  (v.get_peer_score p).toRat

/-- `Validator::get_peer_last_seq`. -/
def Validator.get_peer_last_seq (v : Validator) (p : Peer) : Option Nat :=
  (alookup p v.peers).bind (fun st => st.last_seq)

/-- `Validator::get_offence_count`. -/
def Validator.get_offence_count (v : Validator) (p : Peer) : Nat :=
  (alookup p v.offences).getD 0

/-- The forwarder's current token count, read through the registry; an
absent peer reads as a full default bucket. -/
def Validator.peer_tokens (v : Validator) (p : Peer) : FQ :=
  ((alookup p v.peers).map (fun st => st.bucket.tokens)).getD
    (FQ.ofInt (TOKEN_BUCKET_CAPACITY : Int))

/-- `Validator::ensure_peer_exists`: when the registry is at or above
`MAX_PEERS`, remove the first key in iteration order, then
`entry(..).or_insert_with(PeerState::default)`. -/
def Validator.ensure_peer_exists (v : Validator) (now : FQ) (p : Peer) : Validator :=
  let peers1 := if v.peers.length ≥ MAX_PEERS then v.peers.tail else v.peers
  let peers2 :=
    if (alookup p peers1).isSome then peers1
    else peers1 ++ [(p, PeerState.default now)]
  { v with peers := peers2 }

/-- `Validator::update_peer_score`: ensure the peer, add the delta, set the
quarantine flag from the threshold comparison, and publish the new score to
the application-score map. -/
def Validator.update_peer_score (v0 : Validator) (now : FQ) (p : Peer) (delta : FQ) :
    Validator :=
  let v := v0.ensure_peer_exists now p
  match alookup p v.peers with
  | none => v
  | some st =>
    let st' : PeerState :=
      { st with
        score := st.score.add delta
        quarantined := decide (FQ.le (st.score.add delta) QUARANTINE_THRESHOLD) }
    { v with
      peers := aupdate p (fun _ => st') v.peers
      app_scores := ainsert p st'.score v.app_scores }

/-- `Validator::update_peer_last_seq`. -/
def Validator.update_peer_last_seq (v : Validator) (now : FQ) (p : Peer) (seq : Nat) :
    Validator :=
  let v' := v.ensure_peer_exists now p
  { v' with peers := aupdate p (fun st => { st with last_seq := some seq }) v'.peers }

/-- `Validator::is_dupe`. -/
def Validator.is_dupe (v : Validator) (k : Bytes) : Bool :=
  decide (k ∈ v.dedupe_set)

/-- `Validator::add_to_dedupe`: pop the FIFO front (and drop it from the
set) at capacity, then push and insert the new hash. -/
def Validator.add_to_dedupe (v : Validator) (k : Bytes) : Validator :=
  let v1 :=
    if v.dedupe_cache.length ≥ MAX_DEDUPE_SIZE then
      match v.dedupe_cache with
      | [] => v
      | old :: rest =>
        { v with dedupe_cache := rest, dedupe_set := v.dedupe_set.erase old }
    else v
  { v1 with
    dedupe_cache := v1.dedupe_cache ++ [k]
    dedupe_set := sinsert k v1.dedupe_set }

/-- The offence scaling factor `1.0 + ((count as f64 - 1.0) * 0.5).max(0.0)`
from `record_offence_and_update`. -/
def offenceScale (count : Nat) : FQ :=
  (FQ.ofInt 1).add
    (FQ.fmax (((FQ.ofInt (count : Int)).sub (FQ.ofInt 1)).mul ⟨1, 2⟩) (FQ.ofInt 0))

/-- `Validator::record_offence_and_update`: increment the offence count,
scale the base delta by `1 + ((offences - 1) * 0.5).max(0)`, apply it
through `update_peer_score`, and force quarantine once the count exceeds 4.
Returns the effective delta together with the new state. -/
def Validator.record_offence_and_update (v0 : Validator) (now : FQ) (p : Peer)
    (base_delta : FQ) : FQ × Validator :=
  let offences' := abump p v0.offences
  let v1 : Validator := { v0 with offences := offences' }
  let count_val : Nat := (alookup p offences').getD 0
  let effective_delta := base_delta.mul (offenceScale count_val)
  let v2 := v1.update_peer_score now p effective_delta
  let v3 :=
    if count_val > 4 then
      { v2 with peers := aupdate p (fun st => { st with quarantined := true }) v2.peers }
    else v2
  (effective_delta, v3)

/-- `Validator::validate` — the nine-rule pipeline.  The `now` argument
models the instant at which the call happens. -/
def Validator.validate (v : Validator) (now : FQ) (propagation_source : Peer)
    (author : Option Peer) (bytes : Bytes) : Decision × Validator :=
  if v.is_quarantined propagation_source then
    (⟨Acceptance.Ignore, "forwarder_quarantined", FQ.ofInt 0⟩, v)
  else if bytes.length > v.cfg.max_message_bytes then
    let base : FQ := FQ.ofInt (-60)
    let target := author.getD propagation_source
    let v' := (v.record_offence_and_update now target base).2
    (⟨Acceptance.Reject, "oversize", base⟩, v')
  else
    let v1 := v.ensure_peer_exists now propagation_source
    match alookup propagation_source v1.peers with
    | none => (⟨Acceptance.Ignore, "unreachable_peer_missing", FQ.ofInt 0⟩, v1)
    | some st =>
      let r := st.bucket.try_consume now 1
      let v2 : Validator :=
        { v1 with
          peers := aupdate propagation_source (fun s => { s with bucket := r.2 }) v1.peers }
      if !r.1 then
        let base : FQ := FQ.ofInt (-5)
        let v' := (v2.record_offence_and_update now propagation_source base).2
        (⟨Acceptance.Reject, "rate_limited", base⟩, v')
      else
        match decode bytes with
        | none =>
          let base : FQ := FQ.ofInt (-30)
          let target := author.getD propagation_source
          let v' := (v2.record_offence_and_update now target base).2
          (⟨Acceptance.Reject, "decode_error", base⟩, v')
        | some msg =>
          let key := hashKey bytes
          if v2.is_dupe key then
            (⟨Acceptance.Ignore, "duplicate", FQ.ofInt 0⟩, v2)
          else
            let v3 := v2.add_to_dedupe key
            match msg with
            | WireMessage.Good seq payload =>
              if payload = [] then
                let base : FQ := FQ.ofInt (-30)
                let target := author.getD propagation_source
                let v' := (v3.record_offence_and_update now target base).2
                (⟨Acceptance.Reject, "empty_payload", base⟩, v')
              else
                let target := author.getD propagation_source
                let last := (v3.get_peer_last_seq target).getD 0
                if seq ≤ last then
                  (⟨Acceptance.Ignore, "replay_or_old_seq", FQ.ofInt 0⟩, v3)
                else
                  let v4 := v3.update_peer_last_seq now target seq
                  (⟨Acceptance.Accept, "ok", FQ.ofInt 0⟩, v4)
            | WireMessage.Bad =>
              let base : FQ := FQ.ofInt (-80)
              let target := author.getD propagation_source
              let v' := (v3.record_offence_and_update now target base).2
              (⟨Acceptance.Reject, "malicious_payload", base⟩, v')

/-! ## Traces -/

/-- One inbound message event at the validator boundary. -/
structure MsgEvent where
  now : FQ
  forwarder : Peer
  author : Option Peer
  bytes : Bytes
deriving DecidableEq, Repr

/-- State transition of one `validate` call. -/
def Validator.step (v : Validator) (e : MsgEvent) : Validator :=
  (v.validate e.now e.forwarder e.author e.bytes).2

/-- Decision of one `validate` call. -/
def Validator.decideOn (v : Validator) (e : MsgEvent) : Decision :=
  (v.validate e.now e.forwarder e.author e.bytes).1

/-- Run a list of message events from a fresh validator. -/
def runTrace (cfg : ValidatorConfig) (es : List MsgEvent) : Validator :=
  es.foldl Validator.step (Validator.new cfg)

/-- Decisions produced along a trace from a fresh validator. -/
def traceDecisions (cfg : ValidatorConfig) : List MsgEvent → List Decision :=
  go (Validator.new cfg)
where
  go (v : Validator) : List MsgEvent → List Decision
    | [] => []
    | e :: es => v.decideOn e :: go (v.step e) es

/-- A validator state is reachable when some event trace from a fresh
validator produces it. -/
def Reachable (v : Validator) : Prop :=
  ∃ cfg es, v = runTrace cfg es

/-- Registry invariant: duplicate-free keys, the `MAX_PEERS` bound, and the
two directions of the quarantine-flag discipline that the update routines
maintain (the flag is justified by the score threshold or the offence hard
cap, and a score at or below the threshold always shows the flag). -/
structure RegInv (v : Validator) : Prop where
  nodup : (v.peers.map Prod.fst).Nodup
  bound : v.peers.length ≤ MAX_PEERS
  sound : ∀ p st, alookup p v.peers = some st → st.quarantined = true →
    FQ.le st.score QUARANTINE_THRESHOLD ∨ 4 < v.get_offence_count p
  complete : ∀ p st, alookup p v.peers = some st →
    FQ.le st.score QUARANTINE_THRESHOLD → st.quarantined = true

/-- Dedupe invariant: the FIFO queue and the membership set agree, both are
duplicate-free, and the queue respects the `MAX_DEDUPE_SIZE` bound. -/
structure DedupInv (v : Validator) : Prop where
  bound : v.dedupe_cache.length ≤ MAX_DEDUPE_SIZE
  agree : ∀ k, k ∈ v.dedupe_set ↔ k ∈ v.dedupe_cache
  cache_nodup : v.dedupe_cache.Nodup
  set_nodup : v.dedupe_set.Nodup

/-! ## Fraction semantics lemmas -/

theorem FQ.den_posQ (a : FQ) : (0 : ℚ) < ((a.den : ℕ) : ℚ) := by
  exact_mod_cast a.den.pos

theorem FQ.den_neQ (a : FQ) : ((a.den : ℕ) : ℚ) ≠ 0 :=
  ne_of_gt a.den_posQ

theorem FQ.toRat_ofInt (n : Int) : (FQ.ofInt n).toRat = (n : ℚ) := by
  simp [FQ.ofInt, FQ.toRat]

theorem FQ.le_iff (a b : FQ) : FQ.le a b ↔ a.toRat ≤ b.toRat := by
  rw [FQ.toRat, FQ.toRat, div_le_div_iff₀ a.den_posQ b.den_posQ, FQ.le, FQ.denZ, FQ.denZ]
  constructor
  · intro h
    exact_mod_cast h
  · intro h
    exact_mod_cast h

theorem FQ.lt_iff (a b : FQ) : FQ.lt a b ↔ a.toRat < b.toRat := by
  rw [FQ.toRat, FQ.toRat, div_lt_div_iff₀ a.den_posQ b.den_posQ, FQ.lt, FQ.denZ, FQ.denZ]
  constructor
  · intro h
    exact_mod_cast h
  · intro h
    exact_mod_cast h

theorem FQ.toRat_add (a b : FQ) : (a.add b).toRat = a.toRat + b.toRat := by
  rw [FQ.add, FQ.toRat, FQ.toRat, FQ.toRat, div_add_div _ _ a.den_neQ b.den_neQ]
  push_cast [FQ.denZ]
  ring_nf

theorem FQ.toRat_mul (a b : FQ) : (a.mul b).toRat = a.toRat * b.toRat := by
  rw [FQ.mul, FQ.toRat, FQ.toRat, FQ.toRat, div_mul_div_comm]
  push_cast
  ring_nf

theorem FQ.toRat_neg (a : FQ) : a.neg.toRat = -a.toRat := by
  rw [FQ.neg, FQ.toRat, FQ.toRat]
  push_cast
  ring_nf

theorem FQ.toRat_sub (a b : FQ) : (a.sub b).toRat = a.toRat - b.toRat := by
  rw [FQ.sub, FQ.toRat_add, FQ.toRat_neg]
  ring

theorem FQ.toRat_fmax (a b : FQ) : (a.fmax b).toRat = max a.toRat b.toRat := by
  rw [FQ.fmax]
  by_cases h : FQ.le a b
  · rw [if_pos h, max_eq_right ((FQ.le_iff a b).1 h)]
  · rw [if_neg h]
    rw [FQ.le_iff] at h
    rw [max_eq_left (le_of_not_le h)]

theorem FQ.toRat_eq_int_iff (a : FQ) (n : Int) : a.toRat = (n : ℚ) ↔ a.num = n * a.denZ := by
  rw [FQ.toRat, div_eq_iff a.den_neQ, FQ.denZ]
  constructor
  · intro h
    exact_mod_cast h
  · intro h
    exact_mod_cast h

theorem FQ.toRat_eq_int (a : FQ) (n : Int) (h : a.num = n * a.denZ) : a.toRat = (n : ℚ) :=
  (FQ.toRat_eq_int_iff a n).2 h

/-! ## Association-list lemmas -/

theorem alookup_append_of_none {α : Type} (k : Peer) (l1 l2 : List (Peer × α))
    (h : alookup k l1 = none) : alookup k (l1 ++ l2) = alookup k l2 := by
  induction l1 with
  | nil => simp
  | cons hd tl ih =>
    obtain ⟨k', v⟩ := hd
    by_cases hk : k = k'
    · simp [alookup, hk] at h
    · simp only [alookup, if_neg hk] at h ⊢
      exact ih h

theorem alookup_append_of_some {α : Type} (k : Peer) (l1 l2 : List (Peer × α)) (x : α)
    (h : alookup k l1 = some x) : alookup k (l1 ++ l2) = some x := by
  induction l1 with
  | nil => simp [alookup] at h
  | cons hd tl ih =>
    obtain ⟨k', v⟩ := hd
    by_cases hk : k = k'
    · simp only [alookup, if_pos hk] at h ⊢
      exact h
    · simp only [alookup, if_neg hk] at h ⊢
      exact ih h

theorem alookup_eq_none {α : Type} (k : Peer) (l : List (Peer × α))
    (h : ∀ q ∈ l, q.1 ≠ k) : alookup k l = none := by
  induction l with
  | nil => rfl
  | cons hd tl ih =>
    obtain ⟨k', v⟩ := hd
    have hk : k ≠ k' := fun he => (h (k', v) (by simp)) (by simp [he])
    simp only [alookup, if_neg hk]
    exact ih (fun q hq => h q (by simp [hq]))

theorem alookup_some_mem {α : Type} {k : Peer} {l : List (Peer × α)} {x : α}
    (h : alookup k l = some x) : (k, x) ∈ l := by
  induction l with
  | nil => simp [alookup] at h
  | cons hd tl ih =>
    obtain ⟨k', v⟩ := hd
    by_cases hk : k = k'
    · simp only [alookup, if_pos hk] at h
      subst hk
      obtain rfl : v = x := by injection h
      simp
    · simp only [alookup, if_neg hk] at h
      simp [ih h]

theorem alookup_aupdate_self {α : Type} (k : Peer) (f : α → α) (l : List (Peer × α)) :
    alookup k (aupdate k f l) = (alookup k l).map f := by
  induction l with
  | nil => rfl
  | cons hd tl ih =>
    obtain ⟨k', v⟩ := hd
    by_cases hk : k = k'
    · simp [aupdate, alookup, if_pos hk]
    · simp [aupdate, alookup, if_neg hk, ih]

theorem alookup_aupdate_ne {α : Type} (k k' : Peer) (f : α → α) (l : List (Peer × α))
    (h : k ≠ k') : alookup k (aupdate k' f l) = alookup k l := by
  induction l with
  | nil => rfl
  | cons hd tl ih =>
    obtain ⟨k2, v⟩ := hd
    by_cases hk2 : k' = k2
    · subst hk2
      simp [aupdate, alookup, if_neg h, if_neg (fun hkk => h hkk)]
    · by_cases hkk : k = k2
      · simp [aupdate, alookup, if_neg hk2, if_pos hkk]
      · simp [aupdate, alookup, if_neg hk2, if_neg hkk, ih]

theorem aupdate_append_of_none {α : Type} (k : Peer) (f : α → α) (l1 l2 : List (Peer × α))
    (h : alookup k l1 = none) : aupdate k f (l1 ++ l2) = l1 ++ aupdate k f l2 := by
  induction l1 with
  | nil => simp
  | cons hd tl ih =>
    obtain ⟨k', v⟩ := hd
    by_cases hk : k = k'
    · simp [alookup, hk] at h
    · simp only [alookup, if_neg hk] at h
      simp [aupdate, if_neg hk, ih h]

theorem aupdate_keys {α : Type} (k : Peer) (f : α → α) (l : List (Peer × α)) :
    (aupdate k f l).map Prod.fst = l.map Prod.fst := by
  induction l with
  | nil => rfl
  | cons hd tl ih =>
    obtain ⟨k', v⟩ := hd
    by_cases hk : k = k'
    · simp [aupdate, if_pos hk]
    · simp [aupdate, if_neg hk, ih]

theorem aupdate_length {α : Type} (k : Peer) (f : α → α) (l : List (Peer × α)) :
    (aupdate k f l).length = l.length := by
  induction l with
  | nil => rfl
  | cons hd tl ih =>
    obtain ⟨k', v⟩ := hd
    by_cases hk : k = k'
    · simp [aupdate, if_pos hk]
    · simp [aupdate, if_neg hk, ih]

theorem alookup_tail_of_none {α : Type} (k : Peer) (l : List (Peer × α))
    (h : alookup k l = none) : alookup k l.tail = none := by
  cases l with
  | nil => rfl
  | cons hd tl =>
    obtain ⟨k', v⟩ := hd
    by_cases hk : k = k'
    · simp [alookup, hk] at h
    · simpa [alookup, if_neg hk] using h

/-! ## Offence-scale lemmas -/

theorem offenceScale_toRat (n : Nat) :
    (offenceScale n).toRat = 1 + max (((n : ℚ) - 1) * (1 / 2)) 0 := by
  rw [offenceScale, FQ.toRat_add, FQ.toRat_fmax, FQ.toRat_mul, FQ.toRat_sub,
    FQ.toRat_ofInt, FQ.toRat_ofInt, FQ.toRat_ofInt]
  norm_num [FQ.toRat]

theorem offenceScale_ge_one (n : Nat) : (1 : ℚ) ≤ (offenceScale n).toRat := by
  rw [offenceScale_toRat]
  have h := le_max_right (((n : ℚ) - 1) * (1 / 2)) 0
  linarith

/-! ## Characterisation of the registry helpers -/

theorem ensure_of_present (v : Validator) (now : FQ) (p : Peer)
    (hlen : v.peers.length < MAX_PEERS) (h : (alookup p v.peers).isSome) :
    v.ensure_peer_exists now p = v := by
  rw [Validator.ensure_peer_exists]
  simp only [if_neg (by omega : ¬ v.peers.length ≥ MAX_PEERS), if_pos h]

theorem ensure_of_absent (v : Validator) (now : FQ) (p : Peer)
    (hlen : v.peers.length < MAX_PEERS) (h : alookup p v.peers = none) :
    v.ensure_peer_exists now p = { v with peers := v.peers ++ [(p, PeerState.default now)] } := by
  rw [Validator.ensure_peer_exists]
  simp only [if_neg (by omega : ¬ v.peers.length ≥ MAX_PEERS), h, Option.isSome_none,
    Bool.false_eq_true, if_neg, ite_false]

theorem ensure_full_absent (v : Validator) (now : FQ) (p : Peer)
    (hlen : v.peers.length ≥ MAX_PEERS) (h : alookup p v.peers.tail = none) :
    v.ensure_peer_exists now p =
      { v with peers := v.peers.tail ++ [(p, PeerState.default now)] } := by
  rw [Validator.ensure_peer_exists]
  simp only [if_pos hlen, h, Option.isSome_none, Bool.false_eq_true, if_neg, ite_false]

theorem alookup_ensure_self_isSome (v : Validator) (now : FQ) (p : Peer) :
    (alookup p (v.ensure_peer_exists now p).peers).isSome = true := by
  rw [Validator.ensure_peer_exists]
  set peers1 := if v.peers.length ≥ MAX_PEERS then v.peers.tail else v.peers with hp1
  by_cases h : (alookup p peers1).isSome
  · simpa [if_pos h] using h
  · simp only [if_neg h]
    rw [alookup_append_of_none p peers1 _ (by
      cases hx : alookup p peers1 with
      | none => rfl
      | some x => rw [hx] at h; simp at h)]
    simp [alookup]

/-- The new state written for a previously unseen peer penalised with
`base` as its `count`-th offence. -/
def freshPenalised (now base : FQ) (count : Nat) : PeerState :=
  { score := (FQ.ofInt 0).add (base.mul (offenceScale count))
    bucket := TokenBucket.new now
    last_seq := none
    quarantined := decide (FQ.le ((FQ.ofInt 0).add (base.mul (offenceScale count))) QUARANTINE_THRESHOLD) }

theorem update_score_absent (v : Validator) (now : FQ) (p : Peer) (delta : FQ)
    (hlen : v.peers.length < MAX_PEERS) (hp : alookup p v.peers = none) :
    v.update_peer_score now p delta =
      { v with
        peers := v.peers ++
          [(p, { score := (FQ.ofInt 0).add delta
                 bucket := TokenBucket.new now
                 last_seq := none
                 quarantined := decide (FQ.le ((FQ.ofInt 0).add delta) QUARANTINE_THRESHOLD) })]
        app_scores := ainsert p ((FQ.ofInt 0).add delta) v.app_scores } := by
  rw [Validator.update_peer_score, ensure_of_absent v now p hlen hp]
  have h1 : alookup p (v.peers ++ [(p, PeerState.default now)]) = some (PeerState.default now) := by
    rw [alookup_append_of_none p _ _ hp]
    simp [alookup]
  rw [h1]
  dsimp only
  rw [aupdate_append_of_none p _ _ _ hp]
  simp [aupdate, PeerState.default, TokenBucket.new]

theorem update_score_present (v : Validator) (now : FQ) (p : Peer) (delta : FQ) (st : PeerState)
    (hlen : v.peers.length < MAX_PEERS) (hp : alookup p v.peers = some st) :
    v.update_peer_score now p delta =
      { v with
        peers := aupdate p (fun _ =>
          { st with
            score := st.score.add delta
            quarantined := decide (FQ.le (st.score.add delta) QUARANTINE_THRESHOLD) }) v.peers
        app_scores := ainsert p (st.score.add delta) v.app_scores } := by
  rw [Validator.update_peer_score,
    ensure_of_present v now p hlen (by rw [hp]; rfl), hp]

theorem update_score_full_absent (v : Validator) (now : FQ) (p : Peer) (delta : FQ)
    (hlen : v.peers.length ≥ MAX_PEERS) (hp : alookup p v.peers.tail = none) :
    v.update_peer_score now p delta =
      { v with
        peers := v.peers.tail ++
          [(p, { score := (FQ.ofInt 0).add delta
                 bucket := TokenBucket.new now
                 last_seq := none
                 quarantined := decide (FQ.le ((FQ.ofInt 0).add delta) QUARANTINE_THRESHOLD) })]
        app_scores := ainsert p ((FQ.ofInt 0).add delta) v.app_scores } := by
  rw [Validator.update_peer_score, ensure_full_absent v now p hlen hp]
  have h1 : alookup p (v.peers.tail ++ [(p, PeerState.default now)]) =
      some (PeerState.default now) := by
    rw [alookup_append_of_none p _ _ hp]
    simp [alookup]
  rw [h1]
  dsimp only
  rw [aupdate_append_of_none p _ _ _ hp]
  simp [aupdate, PeerState.default, TokenBucket.new]

/-- `record_offence_and_update` on a peer with no offence record and no
registry entry, with room in the registry. -/
theorem record_offence_fresh (v : Validator) (now : FQ) (p : Peer) (base : FQ)
    (hlen : v.peers.length < MAX_PEERS) (hp : alookup p v.peers = none)
    (ho : alookup p v.offences = none) :
    v.record_offence_and_update now p base =
      (base.mul (offenceScale 1),
        { v with
          offences := v.offences ++ [(p, 1)]
          peers := v.peers ++ [(p, freshPenalised now base 1)]
          app_scores := ainsert p ((FQ.ofInt 0).add (base.mul (offenceScale 1))) v.app_scores }) := by
  rw [Validator.record_offence_and_update]
  have hb : abump p v.offences = v.offences ++ [(p, 1)] := by
    rw [abump, ho]
    simp
  simp only [hb]
  have hc : alookup p (v.offences ++ [(p, 1)]) = some 1 := by
    rw [alookup_append_of_none p _ _ ho]
    simp [alookup]
  simp only [hc, Option.getD_some]
  rw [update_score_absent { v with offences := v.offences ++ [(p, 1)] } now p
    (base.mul (offenceScale 1)) hlen hp]
  simp [freshPenalised]

/-- `record_offence_and_update` on a peer with no offence record whose
registry entry is absent even after the eviction of the head entry, with
the registry at capacity. -/
theorem record_offence_fresh_full (v : Validator) (now : FQ) (p : Peer) (base : FQ)
    (hlen : v.peers.length ≥ MAX_PEERS) (hp : alookup p v.peers.tail = none)
    (ho : alookup p v.offences = none) :
    v.record_offence_and_update now p base =
      (base.mul (offenceScale 1),
        { v with
          offences := v.offences ++ [(p, 1)]
          peers := v.peers.tail ++ [(p, freshPenalised now base 1)]
          app_scores := ainsert p ((FQ.ofInt 0).add (base.mul (offenceScale 1))) v.app_scores }) := by
  rw [Validator.record_offence_and_update]
  have hb : abump p v.offences = v.offences ++ [(p, 1)] := by
    rw [abump, ho]
    simp
  simp only [hb]
  have hc : alookup p (v.offences ++ [(p, 1)]) = some 1 := by
    rw [alookup_append_of_none p _ _ ho]
    simp [alookup]
  simp only [hc, Option.getD_some]
  rw [update_score_full_absent { v with offences := v.offences ++ [(p, 1)] } now p
    (base.mul (offenceScale 1)) hlen hp]
  simp [freshPenalised]

/-! ## Branch lemmas for `validate` -/

theorem validate_quarantined (v : Validator) (now : FQ) (f : Peer) (a : Option Peer)
    (bytes : Bytes) (h : v.is_quarantined f = true) :
    v.validate now f a bytes = (⟨Acceptance.Ignore, "forwarder_quarantined", FQ.ofInt 0⟩, v) := by
  rw [Validator.validate, if_pos h]

theorem validate_oversize (v : Validator) (now : FQ) (f : Peer) (a : Option Peer)
    (bytes : Bytes) (hq : v.is_quarantined f = false)
    (hs : bytes.length > v.cfg.max_message_bytes) :
    v.validate now f a bytes =
      (⟨Acceptance.Reject, "oversize", FQ.ofInt (-60)⟩,
        (v.record_offence_and_update now (a.getD f) (FQ.ofInt (-60))).2) := by
  rw [Validator.validate, if_neg (by rw [hq]; simp), if_pos hs]

/-- Entry branch of `validate` once the quarantine and size gates pass: the
registry entry for the forwarder is ensured and its bucket consumed. -/
theorem validate_past_size (v : Validator) (now : FQ) (f : Peer) (a : Option Peer)
    (bytes : Bytes) (st : PeerState) (hq : v.is_quarantined f = false)
    (hs : ¬ bytes.length > v.cfg.max_message_bytes)
    (hst : alookup f (v.ensure_peer_exists now f).peers = some st) :
    v.validate now f a bytes =
      (let r := st.bucket.try_consume now 1
       let v2 : Validator :=
         ⟨(v.ensure_peer_exists now f).cfg,
          aupdate f (fun s => { s with bucket := r.2 }) (v.ensure_peer_exists now f).peers,
          (v.ensure_peer_exists now f).dedupe_cache,
          (v.ensure_peer_exists now f).dedupe_set,
          (v.ensure_peer_exists now f).offences,
          (v.ensure_peer_exists now f).app_scores⟩
       if !r.1 then
         (⟨Acceptance.Reject, "rate_limited", FQ.ofInt (-5)⟩,
           (v2.record_offence_and_update now f (FQ.ofInt (-5))).2)
       else
         match decode bytes with
         | none =>
           (⟨Acceptance.Reject, "decode_error", FQ.ofInt (-30)⟩,
             (v2.record_offence_and_update now (a.getD f) (FQ.ofInt (-30))).2)
         | some msg =>
           if v2.is_dupe (hashKey bytes) then
             (⟨Acceptance.Ignore, "duplicate", FQ.ofInt 0⟩, v2)
           else
             let v3 := v2.add_to_dedupe (hashKey bytes)
             match msg with
             | WireMessage.Good seq payload =>
               if payload = [] then
                 (⟨Acceptance.Reject, "empty_payload", FQ.ofInt (-30)⟩,
                   (v3.record_offence_and_update now (a.getD f) (FQ.ofInt (-30))).2)
               else
                 if seq ≤ (v3.get_peer_last_seq (a.getD f)).getD 0 then
                   (⟨Acceptance.Ignore, "replay_or_old_seq", FQ.ofInt 0⟩, v3)
                 else
                   (⟨Acceptance.Accept, "ok", FQ.ofInt 0⟩,
                     v3.update_peer_last_seq now (a.getD f) seq)
             | WireMessage.Bad =>
               (⟨Acceptance.Reject, "malicious_payload", FQ.ofInt (-80)⟩,
                 (v3.record_offence_and_update now (a.getD f) (FQ.ofInt (-80))).2)) := by
  rw [Validator.validate, if_neg (by rw [hq]; simp), if_neg hs]
  simp only [hst]

/-- Entries of an `aupdate` result: the touched key maps through `f`, the
rest are entries of the original list. -/
theorem mem_aupdate {α : Type} {k : Peer} {f : α → α} {l : List (Peer × α)} {q : Peer × α}
    (h : q ∈ aupdate k f l) : q ∈ l ∨ ∃ x, alookup k l = some x ∧ q = (k, f x) := by
  induction l with
  | nil => simp [aupdate] at h
  | cons hd tl ih =>
    obtain ⟨k', v⟩ := hd
    by_cases hk : k = k'
    · subst hk
      simp only [aupdate, if_pos rfl] at h
      rcases List.mem_cons.1 h with h1 | h2
      · exact Or.inr ⟨v, by simp [alookup], h1⟩
      · exact Or.inl (List.mem_cons.2 (Or.inr h2))
    · simp only [aupdate, if_neg hk] at h
      rcases List.mem_cons.1 h with h1 | h2
      · exact Or.inl (List.mem_cons.2 (Or.inl h1))
      · rcases ih h2 with h3 | ⟨x, hx, hq⟩
        · exact Or.inl (List.mem_cons.2 (Or.inr h3))
        · exact Or.inr ⟨x, by simp [alookup, if_neg hk, hx], hq⟩

theorem alookup_some_key_mem {α : Type} {k : Peer} {l : List (Peer × α)} {x : α}
    (h : alookup k l = some x) : k ∈ l.map Prod.fst := by
  have := alookup_some_mem h
  exact List.mem_map.2 ⟨(k, x), this, rfl⟩

theorem alookup_isSome_of_mem_keys {α : Type} {k : Peer} {l : List (Peer × α)}
    (h : k ∈ l.map Prod.fst) : (alookup k l).isSome = true := by
  induction l with
  | nil => simp at h
  | cons hd tl ih =>
    obtain ⟨k', v⟩ := hd
    by_cases hk : k = k'
    · simp [alookup, if_pos hk]
    · simp only [List.map_cons, List.mem_cons] at h
      rcases h with h | h

      · exact absurd h hk
      · simp only [alookup, if_neg hk]
        exact ih h

theorem alookup_none_of_not_mem_keys {α : Type} {k : Peer} {l : List (Peer × α)}
    (h : k ∉ l.map Prod.fst) : alookup k l = none := by
  cases hx : alookup k l with
  | none => rfl
  | some x => exact absurd (alookup_some_key_mem hx) h

theorem alookup_tail_to_orig {α : Type} {k : Peer} {l : List (Peer × α)} {x : α}
    (hnd : (l.map Prod.fst).Nodup) (h : alookup k l.tail = some x) :
    alookup k l = some x := by
  cases l with
  | nil => simp [alookup] at h
  | cons hd tl =>
    obtain ⟨k', v⟩ := hd
    simp only [List.tail_cons] at h
    by_cases hk : k = k'
    · subst hk
      have hmem := alookup_some_key_mem h
      simp only [List.map_cons, List.nodup_cons] at hnd
      exact absurd hmem hnd.1
    · simp only [alookup, if_neg hk]
      exact h

theorem abump_getD_mono (k q : Peer) (l : List (Peer × Nat)) :
    (alookup q l).getD 0 ≤ (alookup q (abump k l)).getD 0 := by
  rw [abump]
  by_cases h : (alookup k l).isSome
  · rw [if_pos h]
    by_cases hq : q = k
    · subst hq
      rw [alookup_aupdate_self]
      cases alookup q l <;> simp
    · rw [alookup_aupdate_ne q k _ _ hq]
  · rw [if_neg h]
    cases hx : alookup q l with
    | none => simp
    | some x => rw [alookup_append_of_some q _ _ x hx]

theorem abump_getD_ne (k q : Peer) (l : List (Peer × Nat)) (h : q ≠ k) :
    (alookup q (abump k l)).getD 0 = (alookup q l).getD 0 := by
  rw [abump]
  by_cases hs : (alookup k l).isSome
  · rw [if_pos hs, alookup_aupdate_ne q k _ _ h]
  · rw [if_neg hs]
    cases hx : alookup q l with
    | none =>
      rw [alookup_append_of_none q _ _ hx]
      simp [alookup, if_neg h]
    | some x => rw [alookup_append_of_some q _ _ x hx]

/-! ## Preservation of the registry invariant -/

theorem keys_tail {α : Type} (l : List (Peer × α)) :
    l.tail.map Prod.fst = (l.map Prod.fst).tail := by
  cases l <;> rfl

theorem regInv_ensure (v : Validator) (now : FQ) (p : Peer) (h : RegInv v) :
    RegInv (v.ensure_peer_exists now p) := by
  rw [Validator.ensure_peer_exists]
  have hnd1 : ((if v.peers.length ≥ MAX_PEERS then v.peers.tail else v.peers).map
      Prod.fst).Nodup := by
    by_cases hc : v.peers.length ≥ MAX_PEERS
    · rw [if_pos hc, keys_tail]
      exact h.nodup.tail
    · rw [if_neg hc]
      exact h.nodup
  have hlook1 : ∀ q st, alookup q (if v.peers.length ≥ MAX_PEERS then v.peers.tail
      else v.peers) = some st → alookup q v.peers = some st := by
    intro q st hq
    by_cases hc : v.peers.length ≥ MAX_PEERS
    · rw [if_pos hc] at hq
      exact alookup_tail_to_orig h.nodup hq
    · rwa [if_neg hc] at hq
  have hlen1 : (if v.peers.length ≥ MAX_PEERS then v.peers.tail else v.peers).length ≤
      MAX_PEERS - 1 ∨ ((¬ v.peers.length ≥ MAX_PEERS) ∧
        (if v.peers.length ≥ MAX_PEERS then v.peers.tail else v.peers).length =
          v.peers.length) := by
    by_cases hc : v.peers.length ≥ MAX_PEERS
    · rw [if_pos hc]
      left
      have := h.bound
      rw [List.length_tail]
      omega
    · right
      rw [if_neg hc]
      exact ⟨hc, rfl⟩
  set peers1 := if v.peers.length ≥ MAX_PEERS then v.peers.tail else v.peers with hp1
  by_cases hpre : (alookup p peers1).isSome
  · rw [if_pos hpre]
    refine ⟨hnd1, ?_, ?_, ?_⟩
    · show peers1.length ≤ MAX_PEERS
      rcases hlen1 with h1 | ⟨h1, h2⟩
      · have : MAX_PEERS - 1 ≤ MAX_PEERS := Nat.sub_le _ _
        omega
      · rw [h2]; exact h.bound
    · intro q st hq hflag
      exact h.sound q st (hlook1 q st hq) hflag
    · intro q st hq hle
      exact h.complete q st (hlook1 q st hq) hle
  · rw [if_neg hpre]
    have hpn : alookup p peers1 = none := by
      cases hx : alookup p peers1 with
      | none => rfl
      | some x => rw [hx] at hpre; simp at hpre
    refine ⟨?_, ?_, ?_, ?_⟩
    · rw [List.map_append]
      rw [List.nodup_append]
      refine ⟨hnd1, by simp, ?_⟩
      intro a ha hb
      simp only [List.map_cons, List.map_nil, List.mem_singleton] at hb
      subst hb
      have := alookup_isSome_of_mem_keys ha
      rw [hpn] at this
      simp at this
    · show (peers1 ++ [(p, PeerState.default now)]).length ≤ MAX_PEERS
      rw [List.length_append]
      rcases hlen1 with h1 | ⟨h1, h2⟩
      · simp only [List.length_singleton]
        have hM : 1 ≤ MAX_PEERS := by norm_num [MAX_PEERS]
        omega
      · simp only [List.length_singleton]
        rw [h2]
        omega
    · intro q st hq hflag
      by_cases hqp : q = p
      · subst hqp
        rw [alookup_append_of_none q _ _ hpn] at hq
        simp only [alookup, if_pos rfl] at hq
        obtain rfl : PeerState.default now = st := by injection hq
        simp [PeerState.default] at hflag
      · cases hx : alookup q peers1 with
        | none =>
          rw [alookup_append_of_none q _ _ hx] at hq
          simp [alookup, if_neg hqp] at hq
        | some x =>
          rw [alookup_append_of_some q _ _ x hx] at hq
          have hxs : x = st := by injection hq
          subst hxs
          exact h.sound q x (hlook1 q x hx) hflag
    · intro q st hq hle
      by_cases hqp : q = p
      · subst hqp
        rw [alookup_append_of_none q _ _ hpn] at hq
        simp only [alookup, if_pos rfl] at hq
        obtain rfl : PeerState.default now = st := by injection hq
        rw [PeerState.default] at hle
        rw [FQ.le_iff, FQ.toRat_ofInt] at hle
        rw [QUARANTINE_THRESHOLD, FQ.toRat_ofInt] at hle
        norm_num at hle
      · cases hx : alookup q peers1 with
        | none =>
          rw [alookup_append_of_none q _ _ hx] at hq
          simp [alookup, if_neg hqp] at hq
        | some x =>
          rw [alookup_append_of_some q _ _ x hx] at hq
          have hxs : x = st := by injection hq
          subst hxs
          exact h.complete q x (hlook1 q x hx) hle

theorem effective_nonpos (base : FQ) (n : Nat) (h : base.toRat ≤ 0) :
    (base.mul (offenceScale n)).toRat ≤ 0 := by
  rw [FQ.toRat_mul]
  have hs := offenceScale_ge_one n
  exact mul_nonpos_of_nonpos_of_nonneg h (by linarith)

theorem regInv_update_score (v : Validator) (now : FQ) (p : Peer) (delta : FQ)
    (h : RegInv v) : RegInv (v.update_peer_score now p delta) := by
  rw [Validator.update_peer_score]
  have h1 := regInv_ensure v now p h
  set v1 := v.ensure_peer_exists now p with hv1
  rcases hl : alookup p v1.peers with _ | st
  · exact h1
  · refine ⟨?_, ?_, ?_, ?_⟩
    · show ((aupdate p _ v1.peers).map Prod.fst).Nodup
      rw [aupdate_keys]
      exact h1.nodup
    · show (aupdate p _ v1.peers).length ≤ MAX_PEERS
      rw [aupdate_length]
      exact h1.bound
    · intro q stq hq hflag
      show FQ.le stq.score QUARANTINE_THRESHOLD ∨ 4 < v1.get_offence_count q
      by_cases hqp : q = p
      · subst hqp
        rw [alookup_aupdate_self, hl, Option.map_some'] at hq
        have hs : stq = { st with
            score := st.score.add delta
            quarantined := decide (FQ.le (st.score.add delta) QUARANTINE_THRESHOLD) } := by
          injection hq.symm
        subst hs
        left
        exact of_decide_eq_true hflag
      · rw [alookup_aupdate_ne q p _ _ hqp] at hq
        exact h1.sound q stq hq hflag
    · intro q stq hq hle
      by_cases hqp : q = p
      · subst hqp
        rw [alookup_aupdate_self, hl, Option.map_some'] at hq
        have hs : stq = { st with
            score := st.score.add delta
            quarantined := decide (FQ.le (st.score.add delta) QUARANTINE_THRESHOLD) } := by
          injection hq.symm
        subst hs
        simp only [decide_eq_true_eq]
        exact hle
      · rw [alookup_aupdate_ne q p _ _ hqp] at hq
        exact h1.complete q stq hq hle

theorem update_score_offences (v : Validator) (now : FQ) (p : Peer) (delta : FQ) :
    (v.update_peer_score now p delta).offences = v.offences := by
  rw [Validator.update_peer_score]
  rcases hl : alookup p (v.ensure_peer_exists now p).peers with _ | st
  · rfl
  · rfl

theorem regInv_record_offence (v : Validator) (now : FQ) (p : Peer) (base : FQ)
    (h : RegInv v) : RegInv (v.record_offence_and_update now p base).2 := by
  rw [Validator.record_offence_and_update]
  have h1 : RegInv { v with offences := abump p v.offences } := by
    refine ⟨h.nodup, h.bound, ?_, h.complete⟩
    intro q stq hq hflag
    rcases h.sound q stq hq hflag with hs | hs
    · exact Or.inl hs
    · right
      have := abump_getD_mono p q v.offences
      show 4 < (alookup q (abump p v.offences)).getD 0
      rw [Validator.get_offence_count] at hs
      omega
  have h2 := regInv_update_score { v with offences := abump p v.offences } now p
    (base.mul (offenceScale ((alookup p (abump p v.offences)).getD 0))) h1
  set v2 := Validator.update_peer_score { v with offences := abump p v.offences } now p
    (base.mul (offenceScale ((alookup p (abump p v.offences)).getD 0))) with hv2
  by_cases hc : (alookup p (abump p v.offences)).getD 0 > 4
  · simp only [if_pos hc]
    refine ⟨?_, ?_, ?_, ?_⟩
    · show ((aupdate p _ v2.peers).map Prod.fst).Nodup
      rw [aupdate_keys]
      exact h2.nodup
    · show (aupdate p _ v2.peers).length ≤ MAX_PEERS
      rw [aupdate_length]
      exact h2.bound
    · intro q stq hq hflag
      show FQ.le stq.score QUARANTINE_THRESHOLD ∨ 4 < v2.get_offence_count q
      by_cases hqp : q = p
      · right
        show 4 < v2.get_offence_count q
        rw [Validator.get_offence_count, hqp, hv2, update_score_offences]
        exact hc
      · rw [alookup_aupdate_ne q p _ _ hqp] at hq
        exact h2.sound q stq hq hflag
    · intro q stq hq hle
      by_cases hqp : q = p
      · subst hqp
        rw [alookup_aupdate_self, Option.map_eq_some'] at hq
        obtain ⟨stx, hx, hfx⟩ := hq
        subst hfx
        rfl
      · rw [alookup_aupdate_ne q p _ _ hqp] at hq
        exact h2.complete q stq hq hle
  · simp only [if_neg hc]
    exact h2

theorem regInv_update_last_seq (v : Validator) (now : FQ) (p : Peer) (seq : Nat)
    (h : RegInv v) : RegInv (v.update_peer_last_seq now p seq) := by
  rw [Validator.update_peer_last_seq]
  have h1 := regInv_ensure v now p h
  set v1 := v.ensure_peer_exists now p with hv1
  refine ⟨?_, ?_, ?_, ?_⟩
  · show ((aupdate p _ v1.peers).map Prod.fst).Nodup
    rw [aupdate_keys]
    exact h1.nodup
  · show (aupdate p _ v1.peers).length ≤ MAX_PEERS
    rw [aupdate_length]
    exact h1.bound
  · intro q stq hq hflag
    show FQ.le stq.score QUARANTINE_THRESHOLD ∨ 4 < v1.get_offence_count q
    by_cases hqp : q = p
    · subst hqp
      rw [alookup_aupdate_self, Option.map_eq_some'] at hq
      obtain ⟨stx, hx, hfx⟩ := hq
      subst hfx
      rcases h1.sound q stx hx hflag with hs | hs
      · exact Or.inl hs
      · exact Or.inr hs
    · rw [alookup_aupdate_ne q p _ _ hqp] at hq
      exact h1.sound q stq hq hflag
  · intro q stq hq hle
    by_cases hqp : q = p
    · subst hqp
      rw [alookup_aupdate_self, Option.map_eq_some'] at hq
      obtain ⟨stx, hx, hfx⟩ := hq
      subst hfx
      exact h1.complete q stx hx hle
    · rw [alookup_aupdate_ne q p _ _ hqp] at hq
      exact h1.complete q stq hq hle

/-- The bucket-write step inside `validate` preserves the registry
invariant: only the `bucket` field of the forwarder entry changes. -/
theorem regInv_set_bucket (v : Validator) (f : Peer) (b : TokenBucket)
    (h : RegInv v) :
    RegInv { v with peers := aupdate f (fun s => { s with bucket := b }) v.peers } := by
  refine ⟨?_, ?_, ?_, ?_⟩
  · show ((aupdate f _ v.peers).map Prod.fst).Nodup
    rw [aupdate_keys]
    exact h.nodup
  · show (aupdate f _ v.peers).length ≤ MAX_PEERS
    rw [aupdate_length]
    exact h.bound
  · intro q stq hq hflag
    show FQ.le stq.score QUARANTINE_THRESHOLD ∨ 4 < v.get_offence_count q
    by_cases hqp : q = f
    · subst hqp
      rw [alookup_aupdate_self, Option.map_eq_some'] at hq
      obtain ⟨stx, hx, hfx⟩ := hq
      subst hfx
      exact h.sound q stx hx hflag
    · rw [alookup_aupdate_ne q f _ _ hqp] at hq
      exact h.sound q stq hq hflag
  · intro q stq hq hle
    by_cases hqp : q = f
    · subst hqp
      rw [alookup_aupdate_self, Option.map_eq_some'] at hq
      obtain ⟨stx, hx, hfx⟩ := hq
      subst hfx
      exact h.complete q stx hx hle
    · rw [alookup_aupdate_ne q f _ _ hqp] at hq
      exact h.complete q stq hq hle

/-- `add_to_dedupe` does not touch the registry. -/
theorem regInv_add_to_dedupe (v : Validator) (k : Bytes) (h : RegInv v) :
    RegInv (v.add_to_dedupe k) := by
  rw [Validator.add_to_dedupe]
  by_cases hc : v.dedupe_cache.length ≥ MAX_DEDUPE_SIZE
  · simp only [if_pos hc]
    rcases hd : v.dedupe_cache with _ | ⟨old, rest⟩
    · exact ⟨h.nodup, h.bound, h.sound, h.complete⟩
    · exact ⟨h.nodup, h.bound, h.sound, h.complete⟩
  · simp only [if_neg hc]
    exact ⟨h.nodup, h.bound, h.sound, h.complete⟩

/-- A single `validate` call preserves the registry invariant. -/
theorem regInv_validate (v : Validator) (now : FQ) (f : Peer) (a : Option Peer)
    (bytes : Bytes) (h : RegInv v) : RegInv (v.validate now f a bytes).2 := by
  rw [Validator.validate]
  by_cases h1 : v.is_quarantined f
  · simp only [h1, if_true]
    exact h
  · simp only [h1, Bool.false_eq_true, if_false]
    by_cases h2 : bytes.length > v.cfg.max_message_bytes
    · simp only [if_pos h2]
      exact regInv_record_offence v now (a.getD f) (FQ.ofInt (-60)) h
    · simp only [if_neg h2]
      have h3 := regInv_ensure v now f h
      set v1 := v.ensure_peer_exists now f with hv1
      rcases hl : alookup f v1.peers with _ | st
      · exact h3
      · set r := st.bucket.try_consume now 1 with hr
        have h4 : RegInv { v1 with
            peers := aupdate f (fun s => { s with bucket := r.2 }) v1.peers } :=
          regInv_set_bucket v1 f r.2 h3
        set v2 : Validator := { v1 with
          peers := aupdate f (fun s => { s with bucket := r.2 }) v1.peers } with hv2
        by_cases h5 : !r.1
        · simp only [h5, if_true]
          exact regInv_record_offence v2 now f (FQ.ofInt (-5)) h4
        · simp only [h5, Bool.false_eq_true, if_false]
          rcases hd : decode bytes with _ | msg
          · exact regInv_record_offence v2 now (a.getD f) (FQ.ofInt (-30)) h4
          · by_cases h6 : v2.is_dupe (hashKey bytes)
            · simp only [h6, if_true]
              exact h4
            · simp only [h6, Bool.false_eq_true, if_false]
              have h7 : RegInv (v2.add_to_dedupe (hashKey bytes)) :=
                regInv_add_to_dedupe v2 (hashKey bytes) h4
              set v3 := v2.add_to_dedupe (hashKey bytes) with hv3
              rcases msg with ⟨seq, payload⟩ | _
              · by_cases h8 : payload = []
                · simp only [if_pos h8]
                  exact regInv_record_offence v3 now (a.getD f) (FQ.ofInt (-30)) h7
                · simp only [if_neg h8]
                  by_cases h9 : seq ≤ (v3.get_peer_last_seq (a.getD f)).getD 0
                  · simp only [if_pos h9]
                    exact h7
                  · simp only [if_neg h9]
                    exact regInv_update_last_seq v3 now (a.getD f) seq h7
              · exact regInv_record_offence v3 now (a.getD f) (FQ.ofInt (-80)) h7

theorem regInv_new (cfg : ValidatorConfig) : RegInv (Validator.new cfg) := by
  refine ⟨by simp [Validator.new], by simp [Validator.new, MAX_PEERS], ?_, ?_⟩
  · intro p st hp
    simp [Validator.new, alookup] at hp
  · intro p st hp
    simp [Validator.new, alookup] at hp

theorem regInv_runTrace (cfg : ValidatorConfig) (es : List MsgEvent) :
    RegInv (runTrace cfg es) := by
  rw [runTrace]
  induction es using List.reverseRecOn with
  | nil => exact regInv_new cfg
  | append_singleton es e ih =>
    rw [List.foldl_append]
    exact regInv_validate _ e.now e.forwarder e.author e.bytes ih

theorem regInv_reachable (v : Validator) (h : Reachable v) : RegInv v := by
  obtain ⟨cfg, es, rfl⟩ := h
  exact regInv_runTrace cfg es

/-! ## Preservation of the dedupe invariant -/

theorem dedupInv_of_fields (v v' : Validator) (hc : v'.dedupe_cache = v.dedupe_cache)
    (hs : v'.dedupe_set = v.dedupe_set) (h : DedupInv v) : DedupInv v' := by
  refine ⟨?_, ?_, ?_, ?_⟩
  · rw [hc]; exact h.bound
  · intro k
    rw [hc, hs]
    exact h.agree k
  · rw [hc]; exact h.cache_nodup
  · rw [hs]; exact h.set_nodup

theorem ensure_dedupe_cache (v : Validator) (now : FQ) (p : Peer) :
    (v.ensure_peer_exists now p).dedupe_cache = v.dedupe_cache := rfl

theorem ensure_dedupe_set (v : Validator) (now : FQ) (p : Peer) :
    (v.ensure_peer_exists now p).dedupe_set = v.dedupe_set := rfl

theorem update_score_dedupe_cache (v : Validator) (now : FQ) (p : Peer) (delta : FQ) :
    (v.update_peer_score now p delta).dedupe_cache = v.dedupe_cache := by
  rw [Validator.update_peer_score]
  rcases hl : alookup p (v.ensure_peer_exists now p).peers with _ | st
  · rfl
  · rfl

theorem update_score_dedupe_set (v : Validator) (now : FQ) (p : Peer) (delta : FQ) :
    (v.update_peer_score now p delta).dedupe_set = v.dedupe_set := by
  rw [Validator.update_peer_score]
  rcases hl : alookup p (v.ensure_peer_exists now p).peers with _ | st
  · rfl
  · rfl

theorem record_offence_dedupe_cache (v : Validator) (now : FQ) (p : Peer) (base : FQ) :
    (v.record_offence_and_update now p base).2.dedupe_cache = v.dedupe_cache := by
  rw [Validator.record_offence_and_update]
  by_cases hc : (alookup p (abump p v.offences)).getD 0 > 4
  · simp only [if_pos hc]
    exact update_score_dedupe_cache _ now p _
  · simp only [if_neg hc]
    exact update_score_dedupe_cache _ now p _

theorem record_offence_dedupe_set (v : Validator) (now : FQ) (p : Peer) (base : FQ) :
    (v.record_offence_and_update now p base).2.dedupe_set = v.dedupe_set := by
  rw [Validator.record_offence_and_update]
  by_cases hc : (alookup p (abump p v.offences)).getD 0 > 4
  · simp only [if_pos hc]
    exact update_score_dedupe_set _ now p _
  · simp only [if_neg hc]
    exact update_score_dedupe_set _ now p _

theorem update_last_seq_dedupe_cache (v : Validator) (now : FQ) (p : Peer) (seq : Nat) :
    (v.update_peer_last_seq now p seq).dedupe_cache = v.dedupe_cache := rfl

theorem update_last_seq_dedupe_set (v : Validator) (now : FQ) (p : Peer) (seq : Nat) :
    (v.update_peer_last_seq now p seq).dedupe_set = v.dedupe_set := rfl

theorem dedupInv_add (v : Validator) (k : Bytes) (h : DedupInv v)
    (hk : k ∉ v.dedupe_set) : DedupInv (v.add_to_dedupe k) := by
  have hkc : k ∉ v.dedupe_cache := fun hm => hk ((h.agree k).2 hm)
  rw [Validator.add_to_dedupe]
  by_cases hc : v.dedupe_cache.length ≥ MAX_DEDUPE_SIZE
  · simp only [if_pos hc]
    rcases hd : v.dedupe_cache with _ | ⟨old, rest⟩
    · rw [hd] at hc
      simp [MAX_DEDUPE_SIZE] at hc
    · have hold_set : old ∈ v.dedupe_set := (h.agree old).2 (by rw [hd]; simp)
      have hcn : (old :: rest).Nodup := hd ▸ h.cache_nodup
      have hold_rest : old ∉ rest := (List.nodup_cons.1 hcn).1
      have hrest_nodup : rest.Nodup := (List.nodup_cons.1 hcn).2
      have hk_rest : k ∉ rest := fun hm => hkc (by rw [hd]; simp [hm])
      have hk_erase : k ∉ v.dedupe_set.erase old :=
        fun hm => hk (List.mem_of_mem_erase hm)
      refine ⟨?_, ?_, ?_, ?_⟩
      · show (rest ++ [k]).length ≤ MAX_DEDUPE_SIZE
        have : v.dedupe_cache.length = rest.length + 1 := by rw [hd]; simp
        rw [List.length_append]
        simp only [List.length_singleton]
        have hb := h.bound
        omega
      · intro x
        show x ∈ sinsert k (v.dedupe_set.erase old) ↔ x ∈ rest ++ [k]
        rw [sinsert, if_neg hk_erase]
        constructor
        · intro hx
          rcases List.mem_cons.1 hx with hx | hx
          · subst hx
            simp
          · have hx1 := h.set_nodup.mem_erase_iff.1 hx
            have hx2 := (h.agree x).1 hx1.2
            rw [hd] at hx2
            rcases List.mem_cons.1 hx2 with hx3 | hx3
            · exact absurd hx3 hx1.1
            · simp [hx3]
        · intro hx
          rcases List.mem_append.1 hx with hx | hx
          · have hx2 : x ∈ v.dedupe_set := (h.agree x).2 (by rw [hd]; simp [hx])
            have hxo : x ≠ old := fun he => hold_rest (he ▸ hx)
            exact List.mem_cons.2 (Or.inr (h.set_nodup.mem_erase_iff.2 ⟨hxo, hx2⟩))
          · simp only [List.mem_singleton] at hx
            subst hx
            simp
      · show (rest ++ [k]).Nodup
        rw [List.nodup_append]
        exact ⟨hrest_nodup, by simp, by
          intro x hx hy
          simp only [List.mem_singleton] at hy
          subst hy
          exact hk_rest hx⟩
      · show (sinsert k (v.dedupe_set.erase old)).Nodup
        rw [sinsert, if_neg hk_erase]
        exact List.nodup_cons.2 ⟨hk_erase, h.set_nodup.erase old⟩
  · simp only [if_neg hc]
    refine ⟨?_, ?_, ?_, ?_⟩
    · show (v.dedupe_cache ++ [k]).length ≤ MAX_DEDUPE_SIZE
      rw [List.length_append]
      simp only [List.length_singleton]
      omega
    · intro x
      show x ∈ sinsert k v.dedupe_set ↔ x ∈ v.dedupe_cache ++ [k]
      rw [sinsert, if_neg hk]
      constructor
      · intro hx
        rcases List.mem_cons.1 hx with hx | hx
        · subst hx
          simp
        · exact List.mem_append.2 (Or.inl ((h.agree x).1 hx))
      · intro hx
        rcases List.mem_append.1 hx with hx | hx
        · exact List.mem_cons.2 (Or.inr ((h.agree x).2 hx))
        · simp only [List.mem_singleton] at hx
          subst hx
          simp
    · show (v.dedupe_cache ++ [k]).Nodup
      rw [List.nodup_append]
      exact ⟨h.cache_nodup, by simp, by
        intro x hx hy
        simp only [List.mem_singleton] at hy
        subst hy
        exact hkc hx⟩
    · show (sinsert k v.dedupe_set).Nodup
      rw [sinsert, if_neg hk]
      exact List.nodup_cons.2 ⟨hk, h.set_nodup⟩

/-- A single `validate` call preserves the dedupe invariant. -/
theorem dedupInv_validate (v : Validator) (now : FQ) (f : Peer) (a : Option Peer)
    (bytes : Bytes) (h : DedupInv v) : DedupInv (v.validate now f a bytes).2 := by
  rw [Validator.validate]
  by_cases h1 : v.is_quarantined f
  · simp only [h1, if_true]
    exact h
  · simp only [h1, Bool.false_eq_true, if_false]
    by_cases h2 : bytes.length > v.cfg.max_message_bytes
    · simp only [if_pos h2]
      exact dedupInv_of_fields _ _ (record_offence_dedupe_cache _ now _ _)
        (record_offence_dedupe_set _ now _ _) h
    · simp only [if_neg h2]
      have h3 : DedupInv (v.ensure_peer_exists now f) :=
        dedupInv_of_fields _ _ (ensure_dedupe_cache v now f) (ensure_dedupe_set v now f) h
      set v1 := v.ensure_peer_exists now f with hv1
      rcases hl : alookup f v1.peers with _ | st
      · exact h3
      · set r := st.bucket.try_consume now 1 with hr
        have h4 : DedupInv { v1 with
            peers := aupdate f (fun s => { s with bucket := r.2 }) v1.peers } :=
          dedupInv_of_fields v1
            { v1 with peers := aupdate f (fun s => { s with bucket := r.2 }) v1.peers }
            rfl rfl h3
        set v2 : Validator := { v1 with
          peers := aupdate f (fun s => { s with bucket := r.2 }) v1.peers } with hv2
        by_cases h5 : !r.1
        · simp only [h5, if_true]
          exact dedupInv_of_fields _ _ (record_offence_dedupe_cache _ now _ _)
            (record_offence_dedupe_set _ now _ _) h4
        · simp only [h5, Bool.false_eq_true, if_false]
          rcases hd : decode bytes with _ | msg
          · exact dedupInv_of_fields _ _ (record_offence_dedupe_cache _ now _ _)
              (record_offence_dedupe_set _ now _ _) h4
          · by_cases h6 : v2.is_dupe (hashKey bytes)
            · simp only [h6, if_true]
              exact h4
            · simp only [h6, Bool.false_eq_true, if_false]
              have hnotin : hashKey bytes ∉ v2.dedupe_set := by
                intro hm
                rw [Validator.is_dupe] at h6
                simp [hm] at h6
              have h7 : DedupInv (v2.add_to_dedupe (hashKey bytes)) :=
                dedupInv_add v2 (hashKey bytes) h4 hnotin
              set v3 := v2.add_to_dedupe (hashKey bytes) with hv3
              rcases msg with ⟨seq, payload⟩ | _
              · by_cases h8 : payload = []
                · simp only [if_pos h8]
                  exact dedupInv_of_fields _ _ (record_offence_dedupe_cache _ now _ _)
                    (record_offence_dedupe_set _ now _ _) h7
                · simp only [if_neg h8]
                  by_cases h9 : seq ≤ (v3.get_peer_last_seq (a.getD f)).getD 0
                  · simp only [if_pos h9]
                    exact h7
                  · simp only [if_neg h9]
                    exact dedupInv_of_fields _ _ (update_last_seq_dedupe_cache _ now _ _)
                      (update_last_seq_dedupe_set _ now _ _) h7
              · exact dedupInv_of_fields _ _ (record_offence_dedupe_cache _ now _ _)
                  (record_offence_dedupe_set _ now _ _) h7

theorem dedupInv_new (cfg : ValidatorConfig) : DedupInv (Validator.new cfg) := by
  refine ⟨by simp [Validator.new], ?_, by simp [Validator.new], by simp [Validator.new]⟩
  intro k
  simp [Validator.new]

theorem dedupInv_runTrace (cfg : ValidatorConfig) (es : List MsgEvent) :
    DedupInv (runTrace cfg es) := by
  rw [runTrace]
  induction es using List.reverseRecOn with
  | nil => exact dedupInv_new cfg
  | append_singleton es e ih =>
    rw [List.foldl_append]
    exact dedupInv_validate _ e.now e.forwarder e.author e.bytes ih

/-! ## Quarantine stickiness (single step, no eviction) -/

theorem abump_getD_self (p : Peer) (l : List (Peer × Nat)) :
    (alookup p (abump p l)).getD 0 = (alookup p l).getD 0 + 1 := by
  rw [abump]
  by_cases h : (alookup p l).isSome
  · rw [if_pos h, alookup_aupdate_self]
    cases hx : alookup p l with
    | none => rw [hx] at h; simp at h
    | some n => simp
  · rw [if_neg h]
    cases hx : alookup p l with
    | none =>
      rw [alookup_append_of_none p _ _ hx]
      simp [alookup]
    | some n => rw [hx] at h; simp at h

theorem ensure_length_le_succ (v : Validator) (now : FQ) (p : Peer) :
    (v.ensure_peer_exists now p).peers.length ≤ v.peers.length + 1 := by
  rw [Validator.ensure_peer_exists]
  by_cases hc : v.peers.length ≥ MAX_PEERS
  · simp only [if_pos hc]
    by_cases hd : (alookup p v.peers.tail).isSome
    · rw [if_pos hd]
      have := List.length_tail v.peers
      omega
    · rw [if_neg hd, List.length_append]
      have := List.length_tail v.peers
      simp only [List.length_singleton]
      omega
  · simp only [if_neg hc]
    by_cases hd : (alookup p v.peers).isSome
    · rw [if_pos hd]
      omega
    · rw [if_neg hd, List.length_append]
      simp only [List.length_singleton]
      omega

theorem ensure_lookup_ne (v : Validator) (now : FQ) (q p : Peer)
    (hlen : v.peers.length < MAX_PEERS) (hpq : p ≠ q) :
    alookup p (v.ensure_peer_exists now q).peers = alookup p v.peers := by
  rw [Validator.ensure_peer_exists]
  simp only [if_neg (by omega : ¬ v.peers.length ≥ MAX_PEERS)]
  by_cases hd : (alookup q v.peers).isSome
  · rw [if_pos hd]
  · rw [if_neg hd]
    cases hx : alookup p v.peers with
    | none =>
      rw [alookup_append_of_none p _ _ hx]
      simp [alookup, if_neg hpq]
    | some x => exact alookup_append_of_some p _ _ x hx

theorem update_score_lookup_ne (v : Validator) (now : FQ) (q : Peer) (delta : FQ) (p : Peer)
    (hlen : v.peers.length < MAX_PEERS) (hpq : p ≠ q) :
    alookup p (v.update_peer_score now q delta).peers = alookup p v.peers := by
  rw [Validator.update_peer_score]
  rcases hl : alookup q (v.ensure_peer_exists now q).peers with _ | st
  · exact ensure_lookup_ne v now q p hlen hpq
  · show alookup p (aupdate q _ (v.ensure_peer_exists now q).peers) = _
    rw [alookup_aupdate_ne p q _ _ hpq]
    exact ensure_lookup_ne v now q p hlen hpq

theorem record_offence_lookup_ne (v : Validator) (now : FQ) (q : Peer) (base : FQ) (p : Peer)
    (hlen : v.peers.length < MAX_PEERS) (hpq : p ≠ q) :
    alookup p (v.record_offence_and_update now q base).2.peers = alookup p v.peers := by
  rw [Validator.record_offence_and_update]
  by_cases hc : (alookup q (abump q v.offences)).getD 0 > 4
  · simp only [if_pos hc]
    show alookup p (aupdate q _ (Validator.update_peer_score _ now q _).peers) = _
    rw [alookup_aupdate_ne p q _ _ hpq]
    exact update_score_lookup_ne _ now q _ p hlen hpq
  · simp only [if_neg hc]
    exact update_score_lookup_ne _ now q _ p hlen hpq

/-- `record_offence_and_update` keeps an already quarantined peer
quarantined, provided no eviction can happen and the base delta is not a
reward. -/
theorem sticky_record_offence (v : Validator) (now : FQ) (q : Peer) (base : FQ) (p : Peer)
    (hreg : RegInv v) (hq : v.is_quarantined p = true)
    (hlen : v.peers.length < MAX_PEERS) (hbase : base.toRat ≤ 0) :
    (v.record_offence_and_update now q base).2.is_quarantined p = true := by
  obtain ⟨stp, hstp, hflag⟩ : ∃ stp, alookup p v.peers = some stp ∧
      stp.quarantined = true := by
    rw [Validator.is_quarantined] at hq
    cases hx : alookup p v.peers with
    | none => rw [hx] at hq; simp at hq
    | some st =>
      rw [hx] at hq
      simp only [Option.map_some', Option.getD_some] at hq
      exact ⟨st, rfl, hq⟩
  by_cases hpq : p = q
  · subst hpq
    have hens : Validator.ensure_peer_exists
        { v with offences := abump p v.offences } now p =
        { v with offences := abump p v.offences } :=
      ensure_of_present _ now p hlen (by rw [hstp]; rfl)
    rcases hsd : hreg.sound p stp hstp hflag with hsc | hoff
    · -- quarantined by score: the score only decreases, so the threshold
      -- comparison in update_peer_score keeps the flag set
      have hsc' : FQ.le (stp.score.add (base.mul (offenceScale
          ((alookup p (abump p v.offences)).getD 0)))) QUARANTINE_THRESHOLD := by
        rw [FQ.le_iff, FQ.toRat_add]
        rw [FQ.le_iff] at hsc
        have hd := effective_nonpos base ((alookup p (abump p v.offences)).getD 0) hbase
        linarith
      rw [Validator.record_offence_and_update]
      simp only [hens]
      rw [update_score_present { v with offences := abump p v.offences } now p
        (base.mul (offenceScale ((alookup p (abump p v.offences)).getD 0))) stp hlen hstp]
      by_cases hc : (alookup p (abump p v.offences)).getD 0 > 4
      · simp only [if_pos hc]
        rw [Validator.is_quarantined]
        show (Option.map _ (alookup p (aupdate p _ (aupdate p _ v.peers)))).getD false = true
        rw [alookup_aupdate_self, alookup_aupdate_self, hstp]
        simp
      · simp only [if_neg hc]
        rw [Validator.is_quarantined]
        show (Option.map _ (alookup p (aupdate p _ v.peers))).getD false = true
        rw [alookup_aupdate_self, hstp]
        simp only [Option.map_some', Option.map_some, Option.getD_some]
        exact decide_eq_true hsc'
    · -- quarantined by the offence hard cap: the cap check at the end of
      -- record_offence_and_update re-forces the flag
      have hcnt : (alookup p (abump p v.offences)).getD 0 > 4 := by
        have := abump_getD_self p v.offences
        rw [Validator.get_offence_count] at hoff
        omega
      rw [Validator.record_offence_and_update]
      simp only [hens]
      rw [update_score_present { v with offences := abump p v.offences } now p
        (base.mul (offenceScale ((alookup p (abump p v.offences)).getD 0))) stp hlen hstp]
      simp only [if_pos hcnt]
      rw [Validator.is_quarantined]
      show (Option.map _ (alookup p (aupdate p _ (aupdate p _ v.peers)))).getD false = true
      rw [alookup_aupdate_self, alookup_aupdate_self, hstp]
      simp
  · rw [Validator.is_quarantined, record_offence_lookup_ne v now q base p hlen hpq, hstp]
    simp only [Option.map_some', Option.getD_some]
    exact hflag

theorem is_quarantined_set_bucket (v : Validator) (f : Peer)
    (g : PeerState → TokenBucket) (p : Peer) :
    Validator.is_quarantined
      { v with peers := aupdate f (fun s => { s with bucket := g s }) v.peers } p =
      v.is_quarantined p := by
  rw [Validator.is_quarantined, Validator.is_quarantined]
  by_cases hpf : p = f
  · subst hpf
    show (Option.map _ (alookup p (aupdate p _ v.peers))).getD false = _
    rw [alookup_aupdate_self]
    cases alookup p v.peers <;> simp
  · show (Option.map _ (alookup p (aupdate f _ v.peers))).getD false = _
    rw [alookup_aupdate_ne p f _ _ hpf]

theorem add_dedupe_peers (v : Validator) (k : Bytes) :
    (v.add_to_dedupe k).peers = v.peers := by
  rw [Validator.add_to_dedupe]
  by_cases hc : v.dedupe_cache.length ≥ MAX_DEDUPE_SIZE
  · simp only [if_pos hc]
    rcases v.dedupe_cache with _ | ⟨old, rest⟩
    · rfl
    · rfl
  · simp only [if_neg hc]

theorem sticky_ensure (v : Validator) (now : FQ) (q p : Peer)
    (hq : v.is_quarantined p = true) (hlen : v.peers.length < MAX_PEERS) :
    (v.ensure_peer_exists now q).is_quarantined p = true := by
  by_cases hpq : p = q
  · subst hpq
    rw [ensure_of_present v now p hlen]
    · exact hq
    · rw [Validator.is_quarantined] at hq
      cases hx : alookup p v.peers with
      | none => rw [hx] at hq; simp at hq
      | some st => simp
  · rw [Validator.is_quarantined, ensure_lookup_ne v now q p hlen hpq]
    exact hq

theorem sticky_update_last_seq (v : Validator) (now : FQ) (q : Peer) (seq : Nat) (p : Peer)
    (hq : v.is_quarantined p = true) (hlen : v.peers.length < MAX_PEERS) :
    (v.update_peer_last_seq now q seq).is_quarantined p = true := by
  obtain ⟨stp, hstp, hflag⟩ : ∃ stp, alookup p v.peers = some stp ∧
      stp.quarantined = true := by
    rw [Validator.is_quarantined] at hq
    cases hx : alookup p v.peers with
    | none => rw [hx] at hq; simp at hq
    | some st =>
      rw [hx] at hq
      simp only [Option.map_some', Option.getD_some] at hq
      exact ⟨st, rfl, hq⟩
  rw [Validator.update_peer_last_seq]
  by_cases hpq : p = q
  · subst hpq
    rw [ensure_of_present v now p hlen (by rw [hstp]; rfl)]
    rw [Validator.is_quarantined]
    show (Option.map _ (alookup p (aupdate p _ v.peers))).getD false = true
    rw [alookup_aupdate_self, hstp]
    simp only [Option.map_some', Option.map_some, Option.getD_some]
    exact hflag
  · rw [Validator.is_quarantined]
    show (Option.map _ (alookup p (aupdate q _ (v.ensure_peer_exists now q).peers))).getD
      false = true
    rw [alookup_aupdate_ne p q _ _ hpq, ensure_lookup_ne v now q p hlen hpq, hstp]
    simp only [Option.map_some', Option.getD_some]
    exact hflag

theorem neg60_nonpos : (FQ.ofInt (-60)).toRat ≤ 0 := by
  rw [FQ.toRat_ofInt]
  norm_num

theorem neg5_nonpos : (FQ.ofInt (-5)).toRat ≤ 0 := by
  rw [FQ.toRat_ofInt]
  norm_num

theorem neg30_nonpos : (FQ.ofInt (-30)).toRat ≤ 0 := by
  rw [FQ.toRat_ofInt]
  norm_num

theorem neg80_nonpos : (FQ.ofInt (-80)).toRat ≤ 0 := by
  rw [FQ.toRat_ofInt]
  norm_num

/-- One `validate` call keeps a quarantined peer quarantined whenever the
registry has at least two free slots (so no eviction can happen inside the
call). -/
theorem quarantine_sticky_step (v : Validator) (now : FQ) (f : Peer) (a : Option Peer)
    (bytes : Bytes) (p : Peer) (hreg : RegInv v) (hq : v.is_quarantined p = true)
    (hlen : v.peers.length + 2 ≤ MAX_PEERS) :
    (v.validate now f a bytes).2.is_quarantined p = true := by
  have hlt : v.peers.length < MAX_PEERS := by omega
  rw [Validator.validate]
  by_cases h1 : v.is_quarantined f
  · simp only [h1, if_true]
    exact hq
  · simp only [h1, Bool.false_eq_true, if_false]
    by_cases h2 : bytes.length > v.cfg.max_message_bytes
    · simp only [if_pos h2]
      exact sticky_record_offence v now (a.getD f) _ p hreg hq hlt neg60_nonpos
    · simp only [if_neg h2]
      have h3 := regInv_ensure v now f hreg
      have hq3 := sticky_ensure v now f p hq hlt
      have hlen3 : (v.ensure_peer_exists now f).peers.length < MAX_PEERS := by
        have := ensure_length_le_succ v now f
        omega
      set v1 := v.ensure_peer_exists now f with hv1
      rcases hl : alookup f v1.peers with _ | st
      · exact hq3
      · set r := st.bucket.try_consume now 1 with hr
        have h4 : RegInv { v1 with
            peers := aupdate f (fun s => { s with bucket := r.2 }) v1.peers } :=
          regInv_set_bucket v1 f r.2 h3
        have hq4 : Validator.is_quarantined { v1 with
            peers := aupdate f (fun s => { s with bucket := r.2 }) v1.peers } p = true := by
          rw [is_quarantined_set_bucket v1 f (fun _ => r.2) p]
          exact hq3
        have hlen4 : (aupdate f (fun s => { s with bucket := r.2 }) v1.peers).length <
            MAX_PEERS := by
          rw [aupdate_length]
          exact hlen3
        set v2 : Validator := { v1 with
          peers := aupdate f (fun s => { s with bucket := r.2 }) v1.peers } with hv2
        by_cases h5 : !r.1
        · simp only [h5, if_true]
          exact sticky_record_offence v2 now f _ p h4 hq4 hlen4 neg5_nonpos
        · simp only [h5, Bool.false_eq_true, if_false]
          rcases hd : decode bytes with _ | msg
          · exact sticky_record_offence v2 now (a.getD f) _ p h4 hq4 hlen4 neg30_nonpos
          · by_cases h6 : v2.is_dupe (hashKey bytes)
            · simp only [h6, if_true]
              exact hq4
            · simp only [h6, Bool.false_eq_true, if_false]
              have h7 : RegInv (v2.add_to_dedupe (hashKey bytes)) :=
                regInv_add_to_dedupe v2 (hashKey bytes) h4
              have hq7 : (v2.add_to_dedupe (hashKey bytes)).is_quarantined p = true := by
                rw [Validator.is_quarantined, add_dedupe_peers]
                rw [Validator.is_quarantined] at hq4
                exact hq4
              have hlen7 : (v2.add_to_dedupe (hashKey bytes)).peers.length < MAX_PEERS := by
                rw [add_dedupe_peers]
                exact hlen4
              set v3 := v2.add_to_dedupe (hashKey bytes) with hv3
              rcases msg with ⟨seq, payload⟩ | _
              · by_cases h8 : payload = []
                · simp only [if_pos h8]
                  exact sticky_record_offence v3 now (a.getD f) _ p h7 hq7 hlen7 neg30_nonpos
                · simp only [if_neg h8]
                  by_cases h9 : seq ≤ (v3.get_peer_last_seq (a.getD f)).getD 0
                  · simp only [if_pos h9]
                    exact hq7
                  · simp only [if_neg h9]
                    exact sticky_update_last_seq v3 now (a.getD f) seq p hq7 hlen7
              · exact sticky_record_offence v3 now (a.getD f) _ p h7 hq7 hlen7 neg80_nonpos

/-! ## Concrete scenario states -/

/-- A config whose size gate rejects every non-empty payload. -/
def cfg0 : ValidatorConfig := ⟨0⟩

/-- An oversize event: one byte against a zero-byte limit, blaming author
`a` (forwarder 0 stays untouched on the oversize path). -/
def ovEv (a : Peer) : MsgEvent := ⟨FQ.ofInt 0, 0, some a, [0]⟩

/-- A decode-error event from forwarder `f` blaming author `a` (empty bytes
never decode). -/
def deEv (f a : Peer) : MsgEvent := ⟨FQ.ofInt 0, f, some a, []⟩

/-- Two oversize offences quarantine author 1 (score −60 then −90,
cumulative −150 ≤ −90). -/
def quarV : Validator := runTrace cfg0 [ovEv 1, ovEv 1]

/-! ## Claims -/

/-- C2 (amended): once a peer's quarantined flag is true, a `validate`
call on any input leaves it true, **provided the call cannot evict the
peer's registry entry** — guaranteed here by the registry having at least
two free slots.  (The original claim, with no restriction on the registry
occupancy, is refuted by `C2_counterexample`: admitting new peers to a
full registry evicts the quarantined entry and the flag reads false.) -/
theorem C2_quarantine_sticky (v : Validator) (p : Peer) (now : FQ) (f : Peer)
    (a : Option Peer) (bytes : Bytes) (hre : Reachable v)
    (hq : v.is_quarantined p = true) (hlen : v.peers.length + 2 ≤ MAX_PEERS) :
    (v.validate now f a bytes).2.is_quarantined p = true :=
  quarantine_sticky_step v now f a bytes p (regInv_reachable v hre) hq hlen

/-- Witness for `C2_quarantine_sticky` at a concrete quarantined state. -/
theorem C2_witness :
    (quarV.validate (FQ.ofInt 0) 0 (some 1) [0]).2.is_quarantined 1 = true :=
  C2_quarantine_sticky quarV 1 (FQ.ofInt 0) 0 (some 1) [0]
    ⟨cfg0, [ovEv 1, ovEv 1], rfl⟩ rfl
    (by
      have h : quarV.peers.length = 1 := rfl
      rw [h, MAX_PEERS]
      omega)

/-- C3 (amended): in every reachable state, a quarantined peer has score at
or below `QUARANTINE_THRESHOLD` or more offences than `OFFENCE_HARD_CAP`,
and a score at or below the threshold always shows the quarantined flag.
(The full stated equivalence is refuted by `C3_counterexample`: after
eviction and re-admission a peer can sit in the registry with more than 4
retained offences and a false flag.) -/
theorem C3_quarantine_iff (v : Validator) (hre : Reachable v) (p : Peer) :
    (v.is_quarantined p = true → v.scoreQ p ≤ -90 ∨ 4 < v.get_offence_count p) ∧
    (v.scoreQ p ≤ -90 → v.is_quarantined p = true) := by
  have hreg := regInv_reachable v hre
  constructor
  · intro hq
    rw [Validator.is_quarantined] at hq
    cases hx : alookup p v.peers with
    | none => rw [hx] at hq; simp at hq
    | some st =>
      rw [hx] at hq
      simp only [Option.map_some', Option.getD_some] at hq
      rcases hreg.sound p st hx hq with hs | hs
      · left
        rw [Validator.scoreQ, Validator.get_peer_score, hx]
        simp only [Option.map_some', Option.getD_some]
        have := (FQ.le_iff st.score QUARANTINE_THRESHOLD).1 hs
        rw [QUARANTINE_THRESHOLD, FQ.toRat_ofInt] at this
        exact_mod_cast this
      · right
        exact hs
  · intro hs
    rw [Validator.scoreQ, Validator.get_peer_score] at hs
    cases hx : alookup p v.peers with
    | none =>
      rw [hx] at hs
      simp only [Option.map_none', Option.getD_none] at hs
      rw [FQ.toRat_ofInt] at hs
      norm_num at hs
    | some st =>
      rw [hx] at hs
      simp only [Option.map_some', Option.getD_some] at hs
      have hle : FQ.le st.score QUARANTINE_THRESHOLD := by
        rw [FQ.le_iff, QUARANTINE_THRESHOLD, FQ.toRat_ofInt]
        exact_mod_cast hs
      rw [Validator.is_quarantined, hx]
      simp only [Option.map_some', Option.getD_some]
      exact hreg.complete p st hx hle

/-- Witness for `C3_quarantine_iff` at a concrete quarantined state. -/
theorem C3_witness : quarV.scoreQ 1 ≤ -90 ∨ 4 < quarV.get_offence_count 1 :=
  (C3_quarantine_iff quarV ⟨cfg0, [ovEv 1, ovEv 1], rfl⟩ 1).1 rfl

/-- C7: after every sequence of `validate` calls from a fresh validator the
peer registry holds at most `MAX_PEERS` entries, the dedupe FIFO holds at
most `MAX_DEDUPE_SIZE` entries, and the dedupe set and FIFO agree on
membership. -/
theorem C7_boundedness (cfg : ValidatorConfig) (es : List MsgEvent) :
    (runTrace cfg es).peers.length ≤ MAX_PEERS ∧
    (runTrace cfg es).dedupe_cache.length ≤ MAX_DEDUPE_SIZE ∧
    ∀ k, k ∈ (runTrace cfg es).dedupe_set ↔ k ∈ (runTrace cfg es).dedupe_cache :=
  ⟨(regInv_runTrace cfg es).bound, (dedupInv_runTrace cfg es).bound,
    (dedupInv_runTrace cfg es).agree⟩

/-- C8: `validate` is total — every input yields a decision whose reason is
one of the nine public reason codes; in particular the sentinel branch
modelling the `.unwrap()` after `ensure_peer_exists` is unreachable. -/
theorem C8_totality (v : Validator) (now : FQ) (f : Peer) (a : Option Peer) (bytes : Bytes) :
    (v.validate now f a bytes).1.reason ∈
      ["forwarder_quarantined", "oversize", "rate_limited", "decode_error",
       "empty_payload", "duplicate", "replay_or_old_seq", "malicious_payload", "ok"] := by
  rw [Validator.validate]
  by_cases h1 : v.is_quarantined f
  · simp [h1]
  · simp only [h1, Bool.false_eq_true, if_false]
    by_cases h2 : bytes.length > v.cfg.max_message_bytes
    · simp [h2]
    · simp only [if_neg h2]
      rcases hl : alookup f (v.ensure_peer_exists now f).peers with _ | st
      · have hcontra := alookup_ensure_self_isSome v now f
        rw [hl] at hcontra
        simp at hcontra
      · by_cases h5 : !(st.bucket.try_consume now 1).1
        · simp [h5]
        · simp only [h5, Bool.false_eq_true, if_false]
          rcases hd : decode bytes with _ | msg
          · simp
          · set v2 : Validator := { v.ensure_peer_exists now f with
              peers := aupdate f (fun s => { s with bucket := (st.bucket.try_consume now 1).2 })
                (v.ensure_peer_exists now f).peers } with hv2
            by_cases h6 : v2.is_dupe (hashKey bytes)
            · simp [h6]
            · simp only [h6, Bool.false_eq_true, if_false]
              rcases msg with ⟨seq, payload⟩ | _
              · by_cases h8 : payload = []
                · simp [h8]
                · simp only [if_neg h8]
                  by_cases h9 : seq ≤ ((v2.add_to_dedupe (hashKey bytes)).get_peer_last_seq
                      (a.getD f)).getD 0
                  · simp [h9]
                  · simp [h9]
              · simp

/-! ## C1: the malicious-escalation scenario -/

/-- The default simulation config (`max_message_bytes = 16384`). -/
def cfgBad : ValidatorConfig := ⟨16384⟩

/-- The encoded `Bad` message from author 1 through forwarder 0. -/
def badEv : MsgEvent := ⟨FQ.ofInt 0, 0, some 1, encode WireMessage.Bad⟩

/-- Iterated `record_offence_and_update` with base −80 against author 1,
collecting the returned effective deltas. -/
def offenceRun : Nat → Validator → List FQ × Validator
  | 0, v => ([], v)
  | n + 1, v =>
    let r := v.record_offence_and_update (FQ.ofInt 0) 1 (FQ.ofInt (-80))
    let rest := offenceRun n r.2
    (r.1 :: rest.1, rest.2)

/-- C1 (counterexample): sending the encoded `Bad` message five times from
the same author through a fresh forwarder does **not** produce the deltas
−80, −120, −160, −200, −240: the first call rejects with delta −80, but the
four repeats are identical bytes and are dropped by the dedupe cache as
`(Ignore, duplicate, 0)`; the cumulative author score is −80 (not −800) and
the author is not quarantined. -/
theorem C1_counterexample :
    traceDecisions cfgBad (List.replicate 5 badEv) =
      ⟨Acceptance.Reject, "malicious_payload", FQ.ofInt (-80)⟩ ::
        List.replicate 4 ⟨Acceptance.Ignore, "duplicate", FQ.ofInt 0⟩ ∧
    (runTrace cfgBad (List.replicate 5 badEv)).scoreQ 1 = -80 ∧
    (runTrace cfgBad (List.replicate 5 badEv)).is_quarantined 1 = false ∧
    (runTrace cfgBad (List.replicate 5 badEv)).get_offence_count 1 = 1 := by
  refine ⟨rfl, ?_, rfl, rfl⟩
  rw [Validator.scoreQ]
  have h := FQ.toRat_eq_int
    ((runTrace cfgBad (List.replicate 5 badEv)).get_peer_score 1) (-80) (by rfl)
  rw [h]
  norm_num

/-- C1 (amended): the −80/−120/−160/−200/−240 escalation ladder, cumulative
score −800 and quarantine from offence 2 onwards (score −200 ≤ −90) hold
for five applications of the offence primitive `record_offence_and_update`
with base −80 to the same author — i.e. for five *distinct* malicious
offences; identical `Bad` bytes sent through `validate` are deduplicated
after the first (see `C1_counterexample`). -/
theorem C1_escalation :
    (offenceRun 5 (Validator.new cfgBad)).1.map FQ.toRat =
      [-80, -120, -160, -200, -240] ∧
    (offenceRun 5 (Validator.new cfgBad)).2.scoreQ 1 = -800 ∧
    (offenceRun 1 (Validator.new cfgBad)).2.is_quarantined 1 = false ∧
    (offenceRun 2 (Validator.new cfgBad)).2.is_quarantined 1 = true ∧
    (offenceRun 5 (Validator.new cfgBad)).2.is_quarantined 1 = true ∧
    (offenceRun 5 (Validator.new cfgBad)).2.get_offence_count 1 = 5 := by
  refine ⟨?_, ?_, rfl, rfl, rfl, rfl⟩
  · have h : (offenceRun 5 (Validator.new cfgBad)).1 =
        [⟨-80, 1⟩, ⟨-240, 2⟩, ⟨-320, 2⟩, ⟨-400, 2⟩, ⟨-480, 2⟩] := rfl
    rw [h]
    simp only [List.map_cons, List.map_nil]
    rw [FQ.toRat_eq_int ⟨-80, 1⟩ (-80) (by rfl), FQ.toRat_eq_int ⟨-240, 2⟩ (-120) (by rfl),
      FQ.toRat_eq_int ⟨-320, 2⟩ (-160) (by rfl), FQ.toRat_eq_int ⟨-400, 2⟩ (-200) (by rfl),
      FQ.toRat_eq_int ⟨-480, 2⟩ (-240) (by rfl)]
    norm_num
  · rw [Validator.scoreQ]
    have h := FQ.toRat_eq_int
      ((offenceRun 5 (Validator.new cfgBad)).2.get_peer_score 1) (-800) (by rfl)
    rw [h]
    norm_num

/-! ## C4: oversize rejection -/

theorem freshPenalised_scoreQ (now base : FQ) (count : Nat) :
    (freshPenalised now base count).score.toRat =
      base.toRat * (offenceScale count).toRat := by
  rw [freshPenalised]
  simp only
  rw [FQ.toRat_add, FQ.toRat_mul, FQ.toRat_ofInt]
  norm_num

/-- C4 (amended): when the forwarder is **not quarantined** (rule 1 fires
first otherwise — see `C4_counterexample`), a message longer than
`max_message_bytes` is rejected as `(Reject, oversize)` with base delta
−60 charged against the author (falling back to the forwarder), and a
previously unseen target peer ends with score −60 and offence count 1. -/
theorem C4_oversize_reject (v : Validator) (now : FQ) (f : Peer) (a : Option Peer)
    (bytes : Bytes) (hq : v.is_quarantined f = false)
    (hs : bytes.length > v.cfg.max_message_bytes) :
    (v.validate now f a bytes).1 = ⟨Acceptance.Reject, "oversize", FQ.ofInt (-60)⟩ ∧
    (alookup (a.getD f) v.peers = none → alookup (a.getD f) v.offences = none →
      (v.validate now f a bytes).2.scoreQ (a.getD f) = -60 ∧
      (v.validate now f a bytes).2.get_offence_count (a.getD f) = 1) := by
  constructor
  · rw [validate_oversize v now f a bytes hq hs]
  · intro hp ho
    rw [validate_oversize v now f a bytes hq hs]
    dsimp only
    have hscore : (freshPenalised now (FQ.ofInt (-60)) 1).score.toRat = -60 := by
      rw [freshPenalised_scoreQ, FQ.toRat_ofInt, offenceScale_toRat]
      norm_num
    have hone : alookup (a.getD f) [((a.getD f : Peer), (1 : Nat))] = some 1 := by
      simp [alookup]
    have hfp : alookup (a.getD f)
        [((a.getD f : Peer), freshPenalised now (FQ.ofInt (-60)) 1)] =
        some (freshPenalised now (FQ.ofInt (-60)) 1) := by
      simp [alookup]
    by_cases hlen : v.peers.length < MAX_PEERS
    · rw [record_offence_fresh v now (a.getD f) _ hlen hp ho]
      dsimp only
      constructor
      · rw [Validator.scoreQ, Validator.get_peer_score]
        dsimp only
        rw [alookup_append_of_none _ _ _ hp, hfp]
        simp only [Option.map_some', Option.getD_some]
        exact hscore
      · rw [Validator.get_offence_count]
        dsimp only
        rw [alookup_append_of_none _ _ _ ho, hone]
        rfl
    · have hfull : v.peers.length ≥ MAX_PEERS := by omega
      have hp' : alookup (a.getD f) v.peers.tail = none := alookup_tail_of_none _ _ hp
      rw [record_offence_fresh_full v now (a.getD f) _ hfull hp' ho]
      dsimp only
      constructor
      · rw [Validator.scoreQ, Validator.get_peer_score]
        dsimp only
        rw [alookup_append_of_none _ _ _ hp', hfp]
        simp only [Option.map_some', Option.getD_some]
        exact hscore
      · rw [Validator.get_offence_count]
        dsimp only
        rw [alookup_append_of_none _ _ _ ho, hone]
        rfl

/-- Witness for `C4_oversize_reject` on a fresh validator with a zero-byte
size limit. -/
theorem C4_witness :
    ((Validator.new cfg0).validate (FQ.ofInt 0) 0 (some 1) [0]).1 =
      ⟨Acceptance.Reject, "oversize", FQ.ofInt (-60)⟩ ∧
    ((Validator.new cfg0).validate (FQ.ofInt 0) 0 (some 1) [0]).2.scoreQ 1 = -60 := by
  have h := C4_oversize_reject (Validator.new cfg0) (FQ.ofInt 0) 0 (some 1) [0] rfl
    Nat.zero_lt_one
  exact ⟨h.1, (h.2 rfl rfl).1⟩

/-- Forwarder 7 quarantines itself through two authorless oversize sends
(score −60 then −90, cumulative −150). -/
def quarFwdV : Validator := runTrace cfg0 [⟨FQ.ofInt 0, 7, none, [0]⟩, ⟨FQ.ofInt 0, 7, none, [0]⟩]

/-- C4 (counterexample): an oversize message through a quarantined
forwarder is **not** decided `(Reject, oversize)` — rule 1 precedes the
size gate and yields `(Ignore, forwarder_quarantined)`. -/
theorem C4_counterexample :
    ([0] : Bytes).length > quarFwdV.cfg.max_message_bytes ∧
    quarFwdV.is_quarantined 7 = true ∧
    (quarFwdV.validate (FQ.ofInt 0) 7 none [0]).1 =
      ⟨Acceptance.Ignore, "forwarder_quarantined", FQ.ofInt 0⟩ ∧
    (quarFwdV.validate (FQ.ofInt 0) 7 none [0]).1.reason ≠ "oversize" := by
  refine ⟨?_, rfl, rfl, ?_⟩
  · have h : quarFwdV.cfg.max_message_bytes = 0 := rfl
    rw [h]
    norm_num
  · have h : (quarFwdV.validate (FQ.ofInt 0) 7 none [0]).1.reason =
        "forwarder_quarantined" := rfl
    rw [h]
    decide

/-! ## C9: a first message with sequence number zero is never accepted -/

/-- C9: a well-formed `Good` message with `seq = 0` and a non-empty payload
that passes the quarantine, size, rate-limit, decode and dedupe gates is
decided `(Ignore, replay_or_old_seq)` even when its author has no recorded
`last_seq`: the absent value reads as 0 and `0 ≤ 0` fires the replay rule,
so a first message with sequence number 0 is never accepted. -/
theorem C9_seq_zero_ignored (v : Validator) (now : FQ) (f : Peer) (a : Option Peer)
    (bytes : Bytes) (payload : List Nat)
    (hq : v.is_quarantined f = false)
    (hs : ¬ bytes.length > v.cfg.max_message_bytes)
    (hd : decode bytes = some (WireMessage.Good 0 payload))
    (hpay : payload ≠ [])
    (hdup : v.is_dupe (hashKey bytes) = false)
    (htok : ∀ st, alookup f (v.ensure_peer_exists now f).peers = some st →
      (st.bucket.try_consume now 1).1 = true)
    (_hlast : v.get_peer_last_seq (a.getD f) = none) :
    (v.validate now f a bytes).1 = ⟨Acceptance.Ignore, "replay_or_old_seq", FQ.ofInt 0⟩ := by
  rcases hst : alookup f (v.ensure_peer_exists now f).peers with _ | st
  · have hcontra := alookup_ensure_self_isSome v now f
    rw [hst] at hcontra
    simp at hcontra
  · rw [validate_past_size v now f a bytes st hq hs hst]
    have htok' := htok st hst
    rw [Validator.is_dupe] at hdup
    simp only [htok', Bool.not_true, Bool.false_eq_true, if_false, hd, Validator.is_dupe,
      ensure_dedupe_set, hdup, if_neg hpay, Nat.zero_le, if_true, Nat.le_zero]

/-- Witness for `C9_seq_zero_ignored` on a fresh validator. -/
theorem C9_witness :
    ((Validator.new cfgBad).validate (FQ.ofInt 0) 0 (some 1)
      (encode (WireMessage.Good 0 [7]))).1 =
      ⟨Acceptance.Ignore, "replay_or_old_seq", FQ.ofInt 0⟩ :=
  C9_seq_zero_ignored (Validator.new cfgBad) (FQ.ofInt 0) 0 (some 1)
    (encode (WireMessage.Good 0 [7])) [7]
    rfl
    (by
      have h1 : (encode (WireMessage.Good 0 [7])).length = 18 := rfl
      have h2 : (Validator.new cfgBad).cfg.max_message_bytes = 16384 := rfl
      rw [h1, h2]
      norm_num)
    rfl
    (by decide)
    rfl
    (fun st hst => by
      have h0 : alookup 0 ((Validator.new cfgBad).ensure_peer_exists (FQ.ofInt 0) 0).peers =
          some (PeerState.default (FQ.ofInt 0)) := rfl
      rw [h0] at hst
      have hst' : PeerState.default (FQ.ofInt 0) = st := by injection hst
      rw [← hst']
      rfl)
    rfl

/-! ## C5: replay handling -/

/-- `update_peer_last_seq` always leaves the target's `last_seq` at `seq`. -/
theorem update_last_seq_self (v : Validator) (now : FQ) (p : Peer) (seq : Nat) :
    (v.update_peer_last_seq now p seq).get_peer_last_seq p = some seq := by
  rw [Validator.update_peer_last_seq, Validator.get_peer_last_seq]
  show (alookup p (aupdate p _ (v.ensure_peer_exists now p).peers)).bind _ = some seq
  rw [alookup_aupdate_self]
  rcases hx : alookup p (v.ensure_peer_exists now p).peers with _ | st
  · have h := alookup_ensure_self_isSome v now p
    rw [hx] at h
    simp at h
  · simp

/-- The ensure-and-consume prefix of the pipeline does not change any
peer's `last_seq` when no eviction can happen. -/
theorem pipeline_last_seq (v : Validator) (now : FQ) (f : Peer) (b : TokenBucket) (t : Peer)
    (hlen : v.peers.length < MAX_PEERS) :
    Validator.get_peer_last_seq
      { v.ensure_peer_exists now f with
        peers := aupdate f (fun s => { s with bucket := b })
          (v.ensure_peer_exists now f).peers } t = v.get_peer_last_seq t := by
  rw [Validator.get_peer_last_seq, Validator.get_peer_last_seq]
  show (alookup t (aupdate f _ (v.ensure_peer_exists now f).peers)).bind _ = _
  by_cases htf : t = f
  · subst htf
    rw [alookup_aupdate_self]
    rcases hx : alookup t v.peers with _ | st
    · rw [ensure_of_absent v now t hlen hx]
      show ((alookup t (v.peers ++ [(t, PeerState.default now)])).map _).bind _ = _
      rw [alookup_append_of_none _ _ _ hx]
      simp [alookup, PeerState.default]
    · rw [ensure_of_present v now t hlen (by rw [hx]; rfl), hx]
      simp
  · rw [alookup_aupdate_ne t f _ _ htf, ensure_lookup_ne v now f t hlen htf]

/-- C5 (amended): for a later message from author `p` that passes the
quarantine, size, rate-limit, decode, empty-payload and **dedupe** gates
with no eviction possible (at least two free registry slots, so neither
the forwarder's nor the author's `ensure_peer_exists` can evict during
the call): (a) when `p` has a recorded `last_seq = l` and
the message's `seq ≤ l`, the decision is `(Ignore, replay_or_old_seq)` with
zero delta; (b) the author's `last_seq` is set to `seq` iff `seq` exceeds
the previous value (absent read as 0), hence `last_seq` never decreases.
(The original claim, quantifying over *any* later `Good` message with
`seq ≤ s`, is refuted by `C5_counterexample`: a byte-identical resend is
answered `(Ignore, duplicate)`, not `replay_or_old_seq`.) -/
theorem C5_replay (v : Validator) (now : FQ) (f : Peer) (a : Option Peer)
    (bytes : Bytes) (seq : Nat) (payload : List Nat)
    (hq : v.is_quarantined f = false)
    (hs : ¬ bytes.length > v.cfg.max_message_bytes)
    (hd : decode bytes = some (WireMessage.Good seq payload))
    (hpay : payload ≠ [])
    (hdup : v.is_dupe (hashKey bytes) = false)
    (htok : ∀ st, alookup f (v.ensure_peer_exists now f).peers = some st →
      (st.bucket.try_consume now 1).1 = true)
    (hlen : v.peers.length + 2 ≤ MAX_PEERS) :
    (∀ l, v.get_peer_last_seq (a.getD f) = some l → seq ≤ l →
      (v.validate now f a bytes).1 = ⟨Acceptance.Ignore, "replay_or_old_seq", FQ.ofInt 0⟩) ∧
    ((v.validate now f a bytes).2.get_peer_last_seq (a.getD f) =
      if (v.get_peer_last_seq (a.getD f)).getD 0 < seq then some seq
      else v.get_peer_last_seq (a.getD f)) := by
  have hlt : v.peers.length < MAX_PEERS := by omega
  rcases hst : alookup f (v.ensure_peer_exists now f).peers with _ | st
  · have hcontra := alookup_ensure_self_isSome v now f
    rw [hst] at hcontra
    simp at hcontra
  · rw [validate_past_size v now f a bytes st hq hs hst]
    have htok' := htok st hst
    rw [Validator.is_dupe] at hdup
    simp only [htok', Bool.not_true, Bool.false_eq_true, if_false, hd, Validator.is_dupe,
      ensure_dedupe_set, hdup, if_neg hpay]
    have hl3 : ∀ t, Validator.get_peer_last_seq
        (Validator.add_to_dedupe
          ⟨(v.ensure_peer_exists now f).cfg,
           aupdate f (fun s => { s with bucket := (st.bucket.try_consume now 1).2 })
             (v.ensure_peer_exists now f).peers,
           (v.ensure_peer_exists now f).dedupe_cache,
           v.dedupe_set,
           (v.ensure_peer_exists now f).offences,
           (v.ensure_peer_exists now f).app_scores⟩ (hashKey bytes)) t =
        v.get_peer_last_seq t := by
      intro t
      rw [Validator.get_peer_last_seq, add_dedupe_peers, ← Validator.get_peer_last_seq]
      exact pipeline_last_seq v now f _ t hlt
    constructor
    · intro l hl hseq
      simp only [hl3, hl, Option.getD_some]
      rw [if_pos hseq]
    · simp only [hl3]
      by_cases hc : seq ≤ (v.get_peer_last_seq (a.getD f)).getD 0
      · rw [if_pos hc]
        dsimp only
        simp only [hl3]
        rw [if_neg (by omega)]
      · rw [if_neg hc]
        dsimp only
        rw [update_last_seq_self, if_pos (by omega)]

/-- The state after one accepted `Good{seq = 5}` from author 1:
`last_seq 1 = some 5`. -/
def v5 : Validator :=
  runTrace cfgBad [⟨FQ.ofInt 0, 0, some 1, encode (WireMessage.Good 5 [1, 2, 3])⟩]

/-- Witness for `C5_replay`: a distinct lower-sequence message after the
accepted `seq = 5` is ignored as a replay and `last_seq` stays at 5. -/
theorem C5_witness :
    (v5.validate (FQ.ofInt 0) 0 (some 1) (encode (WireMessage.Good 3 [9]))).1 =
      ⟨Acceptance.Ignore, "replay_or_old_seq", FQ.ofInt 0⟩ ∧
    (v5.validate (FQ.ofInt 0) 0 (some 1)
      (encode (WireMessage.Good 3 [9]))).2.get_peer_last_seq 1 = some 5 := by
  have h0 := C5_replay v5 (FQ.ofInt 0) 0 (some 1) (encode (WireMessage.Good 3 [9])) 3 [9]
    rfl
    (by
      have h1 : (encode (WireMessage.Good 3 [9])).length = 18 := rfl
      have h2 : v5.cfg.max_message_bytes = 16384 := rfl
      rw [h1, h2]
      norm_num)
    rfl
    (by decide)
    rfl
    (fun st hst => by
      have h0 : alookup 0 (v5.ensure_peer_exists (FQ.ofInt 0) 0).peers =
          some ⟨FQ.ofInt 0, ⟨100, ⟨99, 1⟩, ⟨0, 1⟩⟩, none, false⟩ := rfl
      rw [h0] at hst
      have hst' : (⟨FQ.ofInt 0, ⟨100, ⟨99, 1⟩, ⟨0, 1⟩⟩, none, false⟩ : PeerState) = st := by
        injection hst
      rw [← hst']
      rfl)
    (by
      have h1 : v5.peers.length = 2 := rfl
      rw [h1, MAX_PEERS]
      omega)
  have h := h0
  simp only [Option.getD_some] at h
  refine ⟨h.1 5 rfl (by omega), ?_⟩
  rw [h.2]
  have h2 : v5.get_peer_last_seq 1 = some 5 := rfl
  rw [h2]
  norm_num

/-- C5 (counterexample): after accepting `Good{seq = 5}` from author 1, a
byte-identical resend (a `Good` message from author 1 with `seq = 5 ≤ 5`)
is answered `(Ignore, duplicate)` by the dedupe cache, not
`(Ignore, replay_or_old_seq)` as the claim requires. -/
theorem C5_counterexample :
    v5.get_peer_last_seq 1 = some 5 ∧
    decode (encode (WireMessage.Good 5 [1, 2, 3])) = some (WireMessage.Good 5 [1, 2, 3]) ∧
    (v5.validate (FQ.ofInt 0) 0 (some 1) (encode (WireMessage.Good 5 [1, 2, 3]))).1 =
      ⟨Acceptance.Ignore, "duplicate", FQ.ofInt 0⟩ ∧
    (v5.validate (FQ.ofInt 0) 0 (some 1)
      (encode (WireMessage.Good 5 [1, 2, 3]))).1.reason ≠ "replay_or_old_seq" := by
  refine ⟨rfl, rfl, rfl, ?_⟩
  have h : (v5.validate (FQ.ofInt 0) 0 (some 1)
      (encode (WireMessage.Good 5 [1, 2, 3]))).1.reason = "duplicate" := rfl
  rw [h]
  decide

/-! ## C6: the oversize path and the forwarder's token bucket -/

theorem peer_tokens_ensure (v : Validator) (now : FQ) (q p : Peer)
    (hlen : v.peers.length < MAX_PEERS) :
    (v.ensure_peer_exists now q).peer_tokens p = v.peer_tokens p := by
  rw [Validator.peer_tokens, Validator.peer_tokens]
  by_cases hpq : p = q
  · subst hpq
    rcases hx : alookup p v.peers with _ | st
    · rw [ensure_of_absent v now p hlen hx]
      show ((alookup p (v.peers ++ [(p, PeerState.default now)])).map _).getD _ = _
      rw [alookup_append_of_none _ _ _ hx]
      simp [alookup, PeerState.default, TokenBucket.new]
    · rw [ensure_of_present v now p hlen (by rw [hx]; rfl), hx]
  · rw [ensure_lookup_ne v now q p hlen hpq]

theorem peer_tokens_update_score (v : Validator) (now : FQ) (q : Peer) (delta : FQ) (p : Peer)
    (hlen : v.peers.length < MAX_PEERS) :
    (v.update_peer_score now q delta).peer_tokens p = v.peer_tokens p := by
  rw [Validator.update_peer_score]
  rcases hl : alookup q (v.ensure_peer_exists now q).peers with _ | st
  · exact peer_tokens_ensure v now q p hlen
  · by_cases hpq : p = q
    · subst hpq
      rw [Validator.peer_tokens]
      show ((alookup p (aupdate p _ (v.ensure_peer_exists now p).peers)).map _).getD _ = _
      rw [alookup_aupdate_self, hl]
      have h2 := peer_tokens_ensure v now p p hlen
      rw [Validator.peer_tokens, hl] at h2
      simpa using h2
    · rw [Validator.peer_tokens]
      show ((alookup p (aupdate q _ (v.ensure_peer_exists now q).peers)).map _).getD _ = _
      rw [alookup_aupdate_ne p q _ _ hpq, ensure_lookup_ne v now q p hlen hpq]
      rfl

theorem peer_tokens_record_offence (v : Validator) (now : FQ) (q : Peer) (base : FQ) (p : Peer)
    (hlen : v.peers.length < MAX_PEERS) :
    (v.record_offence_and_update now q base).2.peer_tokens p = v.peer_tokens p := by
  rw [Validator.record_offence_and_update]
  have hup := peer_tokens_update_score { v with offences := abump q v.offences } now q
    (base.mul (offenceScale ((alookup q (abump q v.offences)).getD 0))) p hlen
  by_cases hc : (alookup q (abump q v.offences)).getD 0 > 4
  · simp only [if_pos hc]
    rw [Validator.peer_tokens]
    show ((alookup p (aupdate q _ (Validator.update_peer_score _ now q _).peers)).map _).getD
      _ = _
    by_cases hpq : p = q
    · subst hpq
      rw [alookup_aupdate_self]
      rw [Validator.peer_tokens] at hup
      rcases hx : alookup p (Validator.update_peer_score
          { v with offences := abump p v.offences } now p
          (base.mul (offenceScale ((alookup p (abump p v.offences)).getD 0)))).peers
        with _ | stx
      · rw [hx] at hup
        simpa using hup
      · rw [hx] at hup
        simpa using hup
    · rw [alookup_aupdate_ne p q _ _ hpq]
      rw [Validator.peer_tokens] at hup
      exact hup
  · simp only [if_neg hc]
    exact hup

/-- C6 (amended): when the registry is below capacity, an oversize message
through a non-quarantined forwarder leaves the forwarder's token count
unchanged — the size gate precedes rate limiting, so the oversize rejection
never consumes a token.  (At capacity the penalty update can evict the
forwarder's registry entry, resetting its bucket to the full default — see
`C6_counterexample`.) -/
theorem C6_oversize_bucket_frame (v : Validator) (now : FQ) (f : Peer) (a : Option Peer)
    (bytes : Bytes) (hq : v.is_quarantined f = false)
    (hs : bytes.length > v.cfg.max_message_bytes)
    (hlen : v.peers.length < MAX_PEERS) :
    (v.validate now f a bytes).2.peer_tokens f = v.peer_tokens f := by
  rw [validate_oversize v now f a bytes hq hs]
  exact peer_tokens_record_offence v now (a.getD f) _ f hlen

/-- Witness for `C6_oversize_bucket_frame` on a fresh validator. -/
theorem C6_witness :
    ((Validator.new cfg0).validate (FQ.ofInt 0) 0 (some 1) [0]).2.peer_tokens 0 =
      (Validator.new cfg0).peer_tokens 0 :=
  C6_oversize_bucket_frame (Validator.new cfg0) (FQ.ofInt 0) 0 (some 1) [0] rfl
    Nat.zero_lt_one
    (by
      have h : (Validator.new cfg0).peers.length = 0 := rfl
      rw [h, MAX_PEERS]
      omega)

/-! ## A full-registry trace: filling the registry with 1000 peers -/

/-- The state written for each flood author: one −60 oversize offence. -/
def pen0 : PeerState := freshPenalised (FQ.ofInt 0) (FQ.ofInt (-60)) 1

/-- One `validate` step on an oversize event (forwarder `fw`, author `a`,
one byte against a zero-byte limit) for a completely fresh author, with
room in the registry: the author is appended with one −60 offence. -/
theorem step_ov_fresh (w : Validator) (fw a : Peer)
    (hq : w.is_quarantined fw = false)
    (hcfg : w.cfg.max_message_bytes = 0)
    (hlen : w.peers.length < MAX_PEERS)
    (hp : alookup a w.peers = none) (ho : alookup a w.offences = none)
    (happ : alookup a w.app_scores = none) :
    w.step ⟨FQ.ofInt 0, fw, some a, [0]⟩ =
      { w with
        peers := w.peers ++ [(a, pen0)]
        offences := w.offences ++ [(a, 1)]
        app_scores := w.app_scores ++ [(a, pen0.score)] } := by
  have hs : ([0] : Bytes).length > w.cfg.max_message_bytes := by
    rw [hcfg]
    norm_num
  rw [Validator.step]
  show (w.validate (FQ.ofInt 0) fw (some a) [0]).2 = _
  rw [validate_oversize w (FQ.ofInt 0) fw (some a) [0] hq hs]
  show (w.record_offence_and_update (FQ.ofInt 0) a (FQ.ofInt (-60))).2 = _
  rw [record_offence_fresh w (FQ.ofInt 0) a (FQ.ofInt (-60)) hlen hp ho]
  show { w with
      offences := w.offences ++ [(a, 1)]
      peers := w.peers ++ [(a, freshPenalised (FQ.ofInt 0) (FQ.ofInt (-60)) 1)]
      app_scores := ainsert a ((FQ.ofInt 0).add ((FQ.ofInt (-60)).mul (offenceScale 1)))
        w.app_scores } = _
  rw [ainsert, happ]
  simp [pen0, freshPenalised]

/-- The same step at a full registry: the head entry is evicted first. -/
theorem step_ov_fresh_full (w : Validator) (fw a : Peer)
    (hq : w.is_quarantined fw = false)
    (hcfg : w.cfg.max_message_bytes = 0)
    (hlen : w.peers.length ≥ MAX_PEERS)
    (hp : alookup a w.peers.tail = none) (ho : alookup a w.offences = none)
    (happ : alookup a w.app_scores = none) :
    w.step ⟨FQ.ofInt 0, fw, some a, [0]⟩ =
      { w with
        peers := w.peers.tail ++ [(a, pen0)]
        offences := w.offences ++ [(a, 1)]
        app_scores := w.app_scores ++ [(a, pen0.score)] } := by
  have hs : ([0] : Bytes).length > w.cfg.max_message_bytes := by
    rw [hcfg]
    norm_num
  rw [Validator.step]
  show (w.validate (FQ.ofInt 0) fw (some a) [0]).2 = _
  rw [validate_oversize w (FQ.ofInt 0) fw (some a) [0] hq hs]
  show (w.record_offence_and_update (FQ.ofInt 0) a (FQ.ofInt (-60))).2 = _
  rw [record_offence_fresh_full w (FQ.ofInt 0) a (FQ.ofInt (-60)) hlen hp ho]
  show { w with
      offences := w.offences ++ [(a, 1)]
      peers := w.peers.tail ++ [(a, freshPenalised (FQ.ofInt 0) (FQ.ofInt (-60)) 1)]
      app_scores := ainsert a ((FQ.ofInt 0).add ((FQ.ofInt (-60)).mul (offenceScale 1)))
        w.app_scores } = _
  rw [ainsert, happ]
  simp [pen0, freshPenalised]

/-- Authorless key freshness over a keyed range map. -/
theorem alookup_range_map_none {α : Type} (m k b : Nat) (g : Nat → α)
    (hm : ∀ i, i < k → b + i ≠ m) :
    alookup m ((List.range k).map (fun i => (b + i, g i))) = none := by
  apply alookup_eq_none
  intro q hq
  obtain ⟨i, hi, rfl⟩ := List.mem_map.1 hq
  exact hm i (List.mem_range.1 hi)

/-- The six initial events: one decode error from forwarder 8 blaming
author 9, then five oversize offences against author 1 (who ends
quarantined at score −600 with 5 offences). -/
def preEvs : List MsgEvent := deEv 8 9 :: List.replicate 5 (ovEv 1)

/-- A default peer entry whose bucket has paid one token. -/
def consumedDefault : PeerState := ⟨FQ.ofInt 0, ⟨100, ⟨99, 1⟩, ⟨0, 1⟩⟩, none, false⟩

/-- Author 9 after one −30 decode-error offence. -/
def st9 : PeerState := freshPenalised (FQ.ofInt 0) (FQ.ofInt (-30)) 1

/-- Author 1 after five oversize offences: score −600 (as −9600/16),
quarantined. -/
def st1 : PeerState := ⟨⟨-9600, 16⟩, ⟨100, ⟨100, 1⟩, ⟨0, 1⟩⟩, none, true⟩

/-- Closed form of the state after `preEvs`. -/
def S3lit : Validator :=
  ⟨cfg0, [(8, consumedDefault), (9, st9), (1, st1)], [], [],
   [(9, 1), (1, 5)], [(9, st9.score), (1, ⟨-9600, 16⟩)]⟩

theorem S3_eq : runTrace cfg0 preEvs = S3lit := by rfl

def floodEvs (k : Nat) : List MsgEvent := (List.range k).map (fun i => ovEv (10 + i))

def floodPeers (k : Nat) : List (Peer × PeerState) :=
  (List.range k).map (fun i => (10 + i, pen0))

def floodOff (k : Nat) : List (Peer × Nat) :=
  (List.range k).map (fun i => (10 + i, 1))

def floodApp (k : Nat) : List (Peer × FQ) :=
  (List.range k).map (fun i => (10 + i, pen0.score))

theorem runTrace_append (cfg : ValidatorConfig) (es1 es2 : List MsgEvent) :
    runTrace cfg (es1 ++ es2) = es2.foldl Validator.step (runTrace cfg es1) := by
  rw [runTrace, runTrace, List.foldl_append]

/-- Closed form of the registry after `preEvs` followed by `k ≤ 997`
fresh-author oversize events: the three initial entries survive and each
flood author is appended with one −60 offence. -/
theorem flood_form (k : Nat) (hk : k ≤ 997) :
    runTrace cfg0 (preEvs ++ floodEvs k) =
      ⟨cfg0, S3lit.peers ++ floodPeers k, [], [],
       S3lit.offences ++ floodOff k, S3lit.app_scores ++ floodApp k⟩ := by
  induction k with
  | zero =>
    have h0 : floodEvs 0 = [] := rfl
    rw [h0, List.append_nil, S3_eq]
    simp only [floodPeers, floodOff, floodApp, List.range_zero, List.map_nil,
      List.append_nil]
    rfl
  | succ k ih =>
    have hk' : k ≤ 997 := by omega
    have hstep : floodEvs (k + 1) = floodEvs k ++ [ovEv (10 + k)] := by
      rw [floodEvs, floodEvs, List.range_succ, List.map_append]
      rfl
    rw [hstep, ← List.append_assoc, runTrace_append, ih hk']
    set W : Validator := ⟨cfg0, S3lit.peers ++ floodPeers k, [], [],
      S3lit.offences ++ floodOff k, S3lit.app_scores ++ floodApp k⟩ with hW
    have hfr : ∀ m : Nat, m ≠ 8 → m ≠ 9 → m ≠ 1 → (∀ i, i < k → 10 + i ≠ m) →
        alookup m W.peers = none := by
      intro m h8 h9 h1 hfl
      show alookup m (S3lit.peers ++ floodPeers k) = none
      rw [alookup_append_of_none]
      · exact alookup_range_map_none m k 10 _ hfl
      · simp [S3lit, alookup, h8, h9, h1]
    have hofr : ∀ m : Nat, m ≠ 9 → m ≠ 1 → (∀ i, i < k → 10 + i ≠ m) →
        alookup m W.offences = none := by
      intro m h9 h1 hfl
      show alookup m (S3lit.offences ++ floodOff k) = none
      rw [alookup_append_of_none]
      · exact alookup_range_map_none m k 10 _ hfl
      · simp [S3lit, alookup, h9, h1]
    have hafr : ∀ m : Nat, m ≠ 9 → m ≠ 1 → (∀ i, i < k → 10 + i ≠ m) →
        alookup m W.app_scores = none := by
      intro m h9 h1 hfl
      show alookup m (S3lit.app_scores ++ floodApp k) = none
      rw [alookup_append_of_none]
      · exact alookup_range_map_none m k 10 _ hfl
      · simp [S3lit, alookup, h9, h1]
    have hlen : W.peers.length < MAX_PEERS := by
      show (S3lit.peers ++ floodPeers k).length < MAX_PEERS
      rw [List.length_append]
      have h1 : S3lit.peers.length = 3 := rfl
      have h2 : (floodPeers k).length = k := by
        rw [floodPeers, List.length_map, List.length_range]
      rw [h1, h2, MAX_PEERS]
      omega
    have hq : W.is_quarantined 0 = false := by
      rw [Validator.is_quarantined, hfr 0 (by omega) (by omega) (by omega)
        (fun i _ => by omega)]
      rfl
    show List.foldl Validator.step W [ovEv (10 + k)] = _
    have hstep2 : List.foldl Validator.step W [ovEv (10 + k)] = W.step (ovEv (10 + k)) := rfl
    rw [hstep2, ovEv]
    rw [step_ov_fresh W 0 (10 + k) hq rfl hlen
      (hfr (10 + k) (by omega) (by omega) (by omega) (fun i hi => by omega))
      (hofr (10 + k) (by omega) (by omega) (fun i hi => by omega))
      (hafr (10 + k) (by omega) (by omega) (fun i hi => by omega))]
    have hP : floodPeers (k + 1) = floodPeers k ++ [(10 + k, pen0)] := by
      rw [floodPeers, floodPeers, List.range_succ, List.map_append]
      rfl
    have hO : floodOff (k + 1) = floodOff k ++ [(10 + k, 1)] := by
      rw [floodOff, floodOff, List.range_succ, List.map_append]
      rfl
    have hA : floodApp (k + 1) = floodApp k ++ [(10 + k, pen0.score)] := by
      rw [floodApp, floodApp, List.range_succ, List.map_append]
      rfl
    rw [hP, hO, hA]
    simp [List.append_assoc]

/-! ## The eviction scenario: a full registry and four more messages -/

/-- A trace that leaves the registry exactly at `MAX_PEERS` entries. -/
def trFull : List MsgEvent := preEvs ++ floodEvs 997

/-- Closed form of the state after `trFull`. -/
def SfullForm : Validator :=
  ⟨cfg0, S3lit.peers ++ floodPeers 997, [], [],
   S3lit.offences ++ floodOff 997, S3lit.app_scores ++ floodApp 997⟩

theorem Sfull_eq : runTrace cfg0 trFull = SfullForm := flood_form 997 (by omega)

/-- Oversize event from forwarder 8 blaming fresh author 3000. -/
def eA : MsgEvent := ⟨FQ.ofInt 0, 8, some 3000, [0]⟩

/-- Oversize event from forwarder 0 blaming fresh author 3001. -/
def eB : MsgEvent := ⟨FQ.ofInt 0, 0, some 3001, [0]⟩

/-- Oversize event from forwarder 0 blaming fresh author 3002. -/
def eC : MsgEvent := ⟨FQ.ofInt 0, 0, some 3002, [0]⟩

/-- Undecodable message from forwarder 1 blaming fresh author 3003. -/
def eD : MsgEvent := ⟨FQ.ofInt 0, 1, some 3003, []⟩

/-- Closed form after `eA`: peer 8 has been evicted. -/
def SAForm : Validator :=
  ⟨cfg0, (9, st9) :: (1, st1) :: (floodPeers 997 ++ [(3000, pen0)]), [], [],
   (9, 1) :: (1, 5) :: (floodOff 997 ++ [(3000, 1)]),
   (9, st9.score) :: (1, ⟨-9600, 16⟩) :: (floodApp 997 ++ [(3000, pen0.score)])⟩

/-- Closed form after `eA, eB`: peers 8 and 9 have been evicted; the
quarantined peer 1 now sits at the head of the registry. -/
def SBForm : Validator :=
  ⟨cfg0, (1, st1) :: (floodPeers 997 ++ [(3000, pen0), (3001, pen0)]), [], [],
   (9, 1) :: (1, 5) :: (floodOff 997 ++ [(3000, 1), (3001, 1)]),
   (9, st9.score) :: (1, ⟨-9600, 16⟩) ::
     (floodApp 997 ++ [(3000, pen0.score), (3001, pen0.score)])⟩

/-- Closed form after `eA, eB, eC`: the quarantined peer 1 itself has been
evicted, while its offence counter survives in the side table. -/
def SCForm : Validator :=
  ⟨cfg0, floodPeers 997 ++ [(3000, pen0), (3001, pen0), (3002, pen0)], [], [],
   (9, 1) :: (1, 5) :: (floodOff 997 ++ [(3000, 1), (3001, 1), (3002, 1)]),
   (9, st9.score) :: (1, ⟨-9600, 16⟩) ::
     (floodApp 997 ++ [(3000, pen0.score), (3001, pen0.score), (3002, pen0.score)])⟩

/-- Every flood registry entry has a key in `[10, 10 + k)`. -/
theorem mem_floodPeers_key {q : Peer × PeerState} {k : Nat} (hq : q ∈ floodPeers k) :
    10 ≤ q.1 ∧ q.1 < 10 + k := by
  rw [floodPeers] at hq
  obtain ⟨i, hi, rfl⟩ := List.mem_map.1 hq
  have hik := List.mem_range.1 hi
  have h3 : i < k := hik
  have h2 : (10 : Nat) ≤ 10 + i := by omega
  have h4 : (10 : Nat) + i < 10 + k := by omega
  exact ⟨h2, h4⟩

theorem alookup_cons_ne {α : Type} (k k' : Peer) (v : α) (l : List (Peer × α))
    (h : k ≠ k') : alookup k ((k', v) :: l) = alookup k l := by
  simp [alookup, h]

theorem SA_eq : SfullForm.step eA = SAForm := by
  have hq : SfullForm.is_quarantined 8 = false := by
    rw [Validator.is_quarantined]
    have h8 : alookup 8 SfullForm.peers = some consumedDefault := by
      show alookup 8 (S3lit.peers ++ floodPeers 997) = some consumedDefault
      exact alookup_append_of_some 8 _ _ _ rfl
    rw [h8]
    rfl
  have hlen : SfullForm.peers.length ≥ MAX_PEERS := by
    show (S3lit.peers ++ floodPeers 997).length ≥ MAX_PEERS
    rw [List.length_append]
    have h1 : S3lit.peers.length = 3 := rfl
    have h2 : (floodPeers 997).length = 997 := by
      rw [floodPeers, List.length_map, List.length_range]
    rw [h1, h2, MAX_PEERS]
  have hp : alookup 3000 SfullForm.peers.tail = none := by
    have htail : SfullForm.peers.tail = [(9, st9), (1, st1)] ++ floodPeers 997 := rfl
    have hl : alookup 3000 ([(9, st9), (1, st1)] : List (Peer × PeerState)) = none := rfl
    rw [htail, alookup_append_of_none 3000 _ _ hl, floodPeers]
    exact alookup_range_map_none 3000 997 10 _ (fun i hi => by omega)
  have ho : alookup 3000 SfullForm.offences = none := by
    show alookup 3000 (S3lit.offences ++ floodOff 997) = none
    have hl : alookup 3000 S3lit.offences = none := rfl
    rw [alookup_append_of_none 3000 _ _ hl, floodOff]
    exact alookup_range_map_none 3000 997 10 _ (fun i hi => by omega)
  have happ : alookup 3000 SfullForm.app_scores = none := by
    show alookup 3000 (S3lit.app_scores ++ floodApp 997) = none
    have hl : alookup 3000 S3lit.app_scores = none := rfl
    rw [alookup_append_of_none 3000 _ _ hl, floodApp]
    exact alookup_range_map_none 3000 997 10 _ (fun i hi => by omega)
  rw [eA, step_ov_fresh_full SfullForm 8 3000 hq rfl hlen hp ho happ]
  show (⟨cfg0, ([(9, st9), (1, st1)] ++ floodPeers 997) ++ [(3000, pen0)], [], [],
    (S3lit.offences ++ floodOff 997) ++ [(3000, 1)],
    (S3lit.app_scores ++ floodApp 997) ++ [(3000, pen0.score)]⟩ : Validator) = SAForm
  rw [SAForm]
  simp [S3lit, List.append_assoc]

theorem mid_flood_none_pe (m : Nat) (hm : ∀ i : Nat, i < 997 → 10 + i ≠ m) :
    alookup m (floodPeers 997) = none := by
  rw [floodPeers]
  exact alookup_range_map_none m 997 10 _ hm

theorem mid_flood_none_off (m : Nat) (hm : ∀ i : Nat, i < 997 → 10 + i ≠ m) :
    alookup m (floodOff 997) = none := by
  rw [floodOff]
  exact alookup_range_map_none m 997 10 _ hm

theorem mid_flood_none_app (m : Nat) (hm : ∀ i : Nat, i < 997 → 10 + i ≠ m) :
    alookup m (floodApp 997) = none := by
  rw [floodApp]
  exact alookup_range_map_none m 997 10 _ hm

theorem floodPeers_len : (floodPeers 997).length = 997 := by
  rw [floodPeers, List.length_map, List.length_range]

theorem SB_eq : SAForm.step eB = SBForm := by
  have hq : SAForm.is_quarantined 0 = false := by
    rw [Validator.is_quarantined]
    have h0 : alookup 0 SAForm.peers = none := by
      show alookup 0 ((9, st9) :: (1, st1) :: (floodPeers 997 ++ [(3000, pen0)])) = none
      rw [alookup_cons_ne 0 9 _ _ (by decide), alookup_cons_ne 0 1 _ _ (by decide),
        alookup_append_of_none 0 _ _ (mid_flood_none_pe 0 (fun i hi => by omega))]
      rfl
    rw [h0]
    rfl
  have hlen : SAForm.peers.length ≥ MAX_PEERS := by
    show ((9, st9) :: (1, st1) :: (floodPeers 997 ++ [(3000, pen0)])).length ≥ MAX_PEERS
    simp only [List.length_cons, List.length_append, floodPeers_len, MAX_PEERS]
    simp
  have hp : alookup 3001 SAForm.peers.tail = none := by
    have htail : SAForm.peers.tail = (1, st1) :: (floodPeers 997 ++ [(3000, pen0)]) := rfl
    rw [htail, alookup_cons_ne 3001 1 _ _ (by decide),
      alookup_append_of_none 3001 _ _ (mid_flood_none_pe 3001 (fun i hi => by omega))]
    rfl
  have ho : alookup 3001 SAForm.offences = none := by
    show alookup 3001 ((9, 1) :: (1, 5) :: (floodOff 997 ++ [(3000, 1)])) = none
    rw [alookup_cons_ne 3001 9 _ _ (by decide), alookup_cons_ne 3001 1 _ _ (by decide),
      alookup_append_of_none 3001 _ _ (mid_flood_none_off 3001 (fun i hi => by omega))]
    rfl
  have happ : alookup 3001 SAForm.app_scores = none := by
    show alookup 3001 ((9, st9.score) :: (1, (⟨-9600, 16⟩ : FQ)) ::
      (floodApp 997 ++ [(3000, pen0.score)])) = none
    rw [alookup_cons_ne 3001 9 _ _ (by decide), alookup_cons_ne 3001 1 _ _ (by decide),
      alookup_append_of_none 3001 _ _ (mid_flood_none_app 3001 (fun i hi => by omega))]
    rfl
  rw [eB, step_ov_fresh_full SAForm 0 3001 hq rfl hlen hp ho happ]
  rw [SBForm]
  simp [SAForm, List.append_assoc]

theorem SC_eq : SBForm.step eC = SCForm := by
  have hq : SBForm.is_quarantined 0 = false := by
    rw [Validator.is_quarantined]
    have h0 : alookup 0 SBForm.peers = none := by
      show alookup 0 ((1, st1) :: (floodPeers 997 ++ [(3000, pen0), (3001, pen0)])) = none
      rw [alookup_cons_ne 0 1 _ _ (by decide),
        alookup_append_of_none 0 _ _ (mid_flood_none_pe 0 (fun i hi => by omega))]
      rfl
    rw [h0]
    rfl
  have hlen : SBForm.peers.length ≥ MAX_PEERS := by
    show ((1, st1) :: (floodPeers 997 ++ [(3000, pen0), (3001, pen0)])).length ≥ MAX_PEERS
    simp only [List.length_cons, List.length_append, floodPeers_len, MAX_PEERS]
    simp
  have hp : alookup 3002 SBForm.peers.tail = none := by
    have htail : SBForm.peers.tail = floodPeers 997 ++ [(3000, pen0), (3001, pen0)] := rfl
    rw [htail,
      alookup_append_of_none 3002 _ _ (mid_flood_none_pe 3002 (fun i hi => by omega))]
    rfl
  have ho : alookup 3002 SBForm.offences = none := by
    show alookup 3002 ((9, 1) :: (1, 5) :: (floodOff 997 ++ [(3000, 1), (3001, 1)])) = none
    rw [alookup_cons_ne 3002 9 _ _ (by decide), alookup_cons_ne 3002 1 _ _ (by decide),
      alookup_append_of_none 3002 _ _ (mid_flood_none_off 3002 (fun i hi => by omega))]
    rfl
  have happ : alookup 3002 SBForm.app_scores = none := by
    show alookup 3002 ((9, st9.score) :: (1, (⟨-9600, 16⟩ : FQ)) ::
      (floodApp 997 ++ [(3000, pen0.score), (3001, pen0.score)])) = none
    rw [alookup_cons_ne 3002 9 _ _ (by decide), alookup_cons_ne 3002 1 _ _ (by decide),
      alookup_append_of_none 3002 _ _ (mid_flood_none_app 3002 (fun i hi => by omega))]
    rfl
  rw [eC, step_ov_fresh_full SBForm 0 3002 hq rfl hlen hp ho happ]
  rw [SCForm]
  simp [SBForm, List.append_assoc]

theorem tail_append_ne_nil {α : Type} (l1 l2 : List α) (h : l1 ≠ []) :
    (l1 ++ l2).tail = l1.tail ++ l2 := by
  cases l1 with
  | nil => exact absurd rfl h
  | cons a t => rfl

theorem aupdate_singleton_self {α : Type} (k : Peer) (g : α → α) (x : α) :
    aupdate k g [(k, x)] = [(k, g x)] := by
  simp [aupdate]

/-- One `validate` step on an undecodable empty message from a forwarder
absent from a full registry, blaming a fresh author: the head entry is
evicted to re-admit the forwarder with a default state (one token paid),
then the next head is evicted to penalise the author with −30. -/
theorem step_decode_readmit (w : Validator) (p q : Peer)
    (hq : w.is_quarantined p = false)
    (hlen : w.peers.length ≥ MAX_PEERS)
    (hp : alookup p w.peers.tail = none)
    (hqp : alookup q (w.peers.tail.tail ++ [(p, consumedDefault)]) = none)
    (ho : alookup q w.offences = none) :
    w.step ⟨FQ.ofInt 0, p, some q, []⟩ =
      ⟨w.cfg, (w.peers.tail.tail ++ [(p, consumedDefault)]) ++ [(q, st9)],
       w.dedupe_cache, w.dedupe_set,
       w.offences ++ [(q, 1)],
       ainsert q ((FQ.ofInt 0).add ((FQ.ofInt (-30)).mul (offenceScale 1))) w.app_scores⟩ := by
  have hMAX : MAX_PEERS = 1000 := rfl
  have hpos : w.peers.tail ≠ [] := by
    have h1 : w.peers.tail.length = w.peers.length - 1 := by
      rw [List.length_tail]
    apply List.ne_nil_of_length_pos
    omega
  have hs : ¬ ([] : Bytes).length > w.cfg.max_message_bytes := by
    simp
  have hens := ensure_full_absent w (FQ.ofInt 0) p hlen hp
  have hst : alookup p (w.ensure_peer_exists (FQ.ofInt 0) p).peers =
      some (PeerState.default (FQ.ofInt 0)) := by
    rw [hens]
    show alookup p (w.peers.tail ++ [(p, PeerState.default (FQ.ofInt 0))]) = _
    rw [alookup_append_of_none p _ _ hp]
    simp [alookup]
  rw [Validator.step]
  show (w.validate (FQ.ofInt 0) p (some q) []).2 = _
  rw [validate_past_size w (FQ.ofInt 0) p (some q) []
    (PeerState.default (FQ.ofInt 0)) hq hs hst]
  rw [hens]
  dsimp only
  rw [aupdate_append_of_none p _ _ _ hp, aupdate_singleton_self]
  show (Validator.record_offence_and_update
    ⟨w.cfg, w.peers.tail ++ [(p, consumedDefault)], w.dedupe_cache, w.dedupe_set,
     w.offences, w.app_scores⟩ (FQ.ofInt 0) q (FQ.ofInt (-30))).2 = _
  have hlen2 : (⟨w.cfg, w.peers.tail ++ [(p, consumedDefault)], w.dedupe_cache,
      w.dedupe_set, w.offences, w.app_scores⟩ : Validator).peers.length ≥ MAX_PEERS := by
    show (w.peers.tail ++ [(p, consumedDefault)]).length ≥ MAX_PEERS
    rw [List.length_append]
    have h1 : w.peers.tail.length = w.peers.length - 1 := by
      rw [List.length_tail]
    have h2 : ([(p, consumedDefault)] : List (Peer × PeerState)).length = 1 := rfl
    omega
  have hp2 : alookup q (⟨w.cfg, w.peers.tail ++ [(p, consumedDefault)], w.dedupe_cache,
      w.dedupe_set, w.offences, w.app_scores⟩ : Validator).peers.tail = none := by
    show alookup q ((w.peers.tail ++ [(p, consumedDefault)]).tail) = none
    rw [tail_append_ne_nil _ _ hpos]
    exact hqp
  rw [record_offence_fresh_full
    ⟨w.cfg, w.peers.tail ++ [(p, consumedDefault)], w.dedupe_cache, w.dedupe_set,
     w.offences, w.app_scores⟩ (FQ.ofInt 0) q (FQ.ofInt (-30)) hlen2 hp2 ho]
  show (⟨w.cfg,
    (w.peers.tail ++ [(p, consumedDefault)]).tail ++
      [(q, freshPenalised (FQ.ofInt 0) (FQ.ofInt (-30)) 1)],
    w.dedupe_cache, w.dedupe_set, w.offences ++ [(q, 1)],
    ainsert q ((FQ.ofInt 0).add ((FQ.ofInt (-30)).mul (offenceScale 1)))
      w.app_scores⟩ : Validator) = _
  rw [tail_append_ne_nil _ _ hpos]
  rfl

theorem alookup_none_forall {α : Type} {k : Peer} {l : List (Peer × α)}
    (h : alookup k l = none) : ∀ q ∈ l, q.1 ≠ k := by
  induction l with
  | nil =>
    intro q hq
    simp at hq
  | cons hd tl ih =>
    obtain ⟨k', v⟩ := hd
    intro q hq
    by_cases hk : k = k'
    · rw [alookup, if_pos hk] at h
      exact absurd h (by simp)
    · rw [alookup, if_neg hk] at h
      rcases List.mem_cons.1 hq with rfl | hq2
      · exact fun he => hk he.symm
      · exact ih h q hq2

theorem alookup_tail_none {α : Type} (k : Peer) (l : List (Peer × α))
    (h : alookup k l = none) : alookup k l.tail = none :=
  alookup_eq_none k l.tail
    (fun q hq => alookup_none_forall h q (List.mem_of_mem_tail hq))

/-- The decode-error readmission step from the closed form after `eC`. -/
theorem SD_eq : SCForm.step eD =
    ⟨cfg0, (SCForm.peers.tail.tail ++ [(1, consumedDefault)]) ++ [(3003, st9)],
     [], [],
     SCForm.offences ++ [(3003, 1)],
     ainsert 3003 ((FQ.ofInt 0).add ((FQ.ofInt (-30)).mul (offenceScale 1)))
       SCForm.app_scores⟩ := by
  have hfresh1 : alookup 1 SCForm.peers = none := by
    show alookup 1 (floodPeers 997 ++ [(3000, pen0), (3001, pen0), (3002, pen0)]) = none
    rw [alookup_append_of_none 1 _ _ (mid_flood_none_pe 1 (fun i hi => by omega))]
    rfl
  have hfresh3003 : alookup 3003 SCForm.peers = none := by
    show alookup 3003 (floodPeers 997 ++ [(3000, pen0), (3001, pen0), (3002, pen0)]) = none
    rw [alookup_append_of_none 3003 _ _ (mid_flood_none_pe 3003 (fun i hi => by omega))]
    rfl
  have hq : SCForm.is_quarantined 1 = false := by
    rw [Validator.is_quarantined, hfresh1]
    rfl
  have hlen : SCForm.peers.length ≥ MAX_PEERS := by
    show (floodPeers 997 ++ [(3000, pen0), (3001, pen0), (3002, pen0)]).length ≥ MAX_PEERS
    simp only [List.length_append, floodPeers_len, MAX_PEERS]
    simp
  have hp : alookup 1 SCForm.peers.tail = none := alookup_tail_none _ _ hfresh1
  have hqp : alookup 3003 (SCForm.peers.tail.tail ++ [(1, consumedDefault)]) = none := by
    rw [alookup_append_of_none 3003 _ _
      (alookup_tail_none _ _ (alookup_tail_none _ _ hfresh3003))]
    rfl
  have ho : alookup 3003 SCForm.offences = none := by
    show alookup 3003 ((9, 1) :: (1, 5) ::
      (floodOff 997 ++ [(3000, 1), (3001, 1), (3002, 1)])) = none
    rw [alookup_cons_ne 3003 9 _ _ (by decide), alookup_cons_ne 3003 1 _ _ (by decide),
      alookup_append_of_none 3003 _ _ (mid_flood_none_off 3003 (fun i hi => by omega))]
    rfl
  rw [eD, step_decode_readmit SCForm 1 3003 hq hlen hp hqp ho]
  rfl

theorem SB_trace : runTrace cfg0 (trFull ++ [eA, eB]) = SBForm := by
  rw [runTrace_append, Sfull_eq]
  show (SfullForm.step eA).step eB = SBForm
  rw [SA_eq, SB_eq]

theorem SC_trace : runTrace cfg0 (trFull ++ [eA, eB, eC]) = SCForm := by
  rw [runTrace_append, Sfull_eq]
  show ((SfullForm.step eA).step eB).step eC = SCForm
  rw [SA_eq, SB_eq, SC_eq]

theorem SD_trace : runTrace cfg0 (trFull ++ [eA, eB, eC, eD]) = SCForm.step eD := by
  rw [runTrace_append, Sfull_eq]
  show (((SfullForm.step eA).step eB).step eC).step eD = SCForm.step eD
  rw [SA_eq, SB_eq, SC_eq]

/-- Along the concrete trace `trFull ++ [eA, eB]`, peer 1 ends quarantined
at the head of a full registry; the next `validate` call (`eC`) evicts its
entry, after which `is_quarantined 1` reads `false`: the quarantined flag
does not survive eviction, refuting unconditional stickiness. -/
theorem C2_counterexample :
    (runTrace cfg0 (trFull ++ [eA, eB])).is_quarantined 1 = true ∧
    (runTrace cfg0 (trFull ++ [eA, eB, eC])).is_quarantined 1 = false := by
  constructor
  · rw [SB_trace, Validator.is_quarantined]
    have h1 : alookup 1 SBForm.peers = some st1 := rfl
    rw [h1]
    rfl
  · rw [SC_trace, Validator.is_quarantined]
    have h1 : alookup 1 SCForm.peers = none := by
      show alookup 1 (floodPeers 997 ++ [(3000, pen0), (3001, pen0), (3002, pen0)]) = none
      rw [alookup_append_of_none 1 _ _ (mid_flood_none_pe 1 (fun i hi => by omega))]
      rfl
    rw [h1]
    rfl

set_option maxRecDepth 8000

/-- After the concrete trace `trFull ++ [eA, eB, eC, eD]`, peer 1 is present
in the registry (re-admitted by `eD` after its eviction) with 5 recorded
offences — strictly more than the hard cap 4 — yet `quarantined = false`:
the claimed iff fails in the offences direction for reachable states. -/
theorem C3_counterexample :
    (runTrace cfg0 (trFull ++ [eA, eB, eC, eD])).get_offence_count 1 = 5 ∧
    (alookup 1 (runTrace cfg0 (trFull ++ [eA, eB, eC, eD])).peers).isSome = true ∧
    (runTrace cfg0 (trFull ++ [eA, eB, eC, eD])).is_quarantined 1 = false := by
  have ht : runTrace cfg0 (trFull ++ [eA, eB, eC, eD]) =
      ⟨cfg0, (SCForm.peers.tail.tail ++ [(1, consumedDefault)]) ++ [(3003, st9)],
       [], [],
       SCForm.offences ++ [(3003, 1)],
       ainsert 3003 ((FQ.ofInt 0).add ((FQ.ofInt (-30)).mul (offenceScale 1)))
         SCForm.app_scores⟩ := by
    rw [SD_trace, SD_eq]
  have hfresh3003 : alookup 3003 SCForm.peers = none := by
    show alookup 3003 (floodPeers 997 ++ [(3000, pen0), (3001, pen0), (3002, pen0)]) = none
    rw [alookup_append_of_none 3003 _ _ (mid_flood_none_pe 3003 (fun i hi => by omega))]
    rfl
  have hfresh1 : alookup 1 SCForm.peers = none := by
    show alookup 1 (floodPeers 997 ++ [(3000, pen0), (3001, pen0), (3002, pen0)]) = none
    rw [alookup_append_of_none 1 _ _ (mid_flood_none_pe 1 (fun i hi => by omega))]
    rfl
  have h1 : alookup 1 ((SCForm.peers.tail.tail ++ [(1, consumedDefault)]) ++
      [(3003, st9)]) = some consumedDefault := by
    apply alookup_append_of_some
    rw [alookup_append_of_none 1 _ _
      (alookup_tail_none _ _ (alookup_tail_none _ _ hfresh1))]
    rfl
  refine ⟨?_, ?_, ?_⟩
  · rw [ht, Validator.get_offence_count]
    show (alookup 1 (SCForm.offences ++ [(3003, 1)])).getD 0 = 5
    have hx : alookup 1 SCForm.offences = some 5 := rfl
    rw [alookup_append_of_some 1 _ _ 5 hx]
    rfl
  · rw [ht]
    show (alookup 1 ((SCForm.peers.tail.tail ++ [(1, consumedDefault)]) ++
      [(3003, st9)])).isSome = true
    rw [h1]
    rfl
  · rw [ht, Validator.is_quarantined]
    show ((alookup 1 ((SCForm.peers.tail.tail ++ [(1, consumedDefault)]) ++
      [(3003, st9)])).map (fun st => st.quarantined)).getD false = false
    rw [h1]
    rfl

/-- At the concrete full-registry state reached by `trFull`, an oversize
message (`[0]` against a zero-byte limit) from the non-quarantined
forwarder 8 changes 8's token reading from 99 to the default 100: the
author-penalty eviction removes the forwarder's registry entry, so the
oversize rejection does not leave the forwarder's token state unchanged. -/
theorem C6_counterexample :
    (runTrace cfg0 trFull).is_quarantined 8 = false ∧
    ([0] : Bytes).length > (runTrace cfg0 trFull).cfg.max_message_bytes ∧
    ((runTrace cfg0 trFull).validate (FQ.ofInt 0) 8 (some 3000) [0]).2.peer_tokens 8 ≠
      (runTrace cfg0 trFull).peer_tokens 8 := by
  have h8 : alookup 8 SfullForm.peers = some consumedDefault := by
    show alookup 8 (S3lit.peers ++ floodPeers 997) = some consumedDefault
    exact alookup_append_of_some 8 _ _ _ rfl
  have h8A : alookup 8 SAForm.peers = none := by
    show alookup 8 ((9, st9) :: (1, st1) :: (floodPeers 997 ++ [(3000, pen0)])) = none
    rw [alookup_cons_ne 8 9 _ _ (by decide), alookup_cons_ne 8 1 _ _ (by decide),
      alookup_append_of_none 8 _ _ (mid_flood_none_pe 8 (fun i hi => by omega))]
    rfl
  refine ⟨?_, ?_, ?_⟩
  · rw [Sfull_eq, Validator.is_quarantined, h8]
    rfl
  · rw [Sfull_eq]
    decide
  · rw [Sfull_eq]
    show (SfullForm.step eA).peer_tokens 8 ≠ SfullForm.peer_tokens 8
    rw [SA_eq]
    have ha : SAForm.peer_tokens 8 = FQ.ofInt 100 := by
      rw [Validator.peer_tokens, h8A]
      rfl
    have hb : SfullForm.peer_tokens 8 = ⟨99, 1⟩ := by
      rw [Validator.peer_tokens, h8]
      rfl
    rw [ha, hb]
    decide

/-- C10: whenever the registry already holds at least `MAX_PEERS` entries,
`ensure_peer_exists` drops the head entry before the entry-or-insert, even
when the ensured peer is already present; consequently, along the concrete
trace `trFull ++ [eA, eB]`, peer 1 sits quarantined in a full registry and
the single `validate` call `eC` removes its entry, after which its score,
tokens, `last_seq` and quarantine flag read the defaults (0, full capacity
100, absent, `false`) while its count of 5 offences in the separate
offences map is retained. -/
theorem C10_eviction :
    (∀ (v : Validator) (now : FQ) (p : Peer), v.peers.length ≥ MAX_PEERS →
      (v.ensure_peer_exists now p).peers =
        (if (alookup p v.peers.tail).isSome then v.peers.tail
         else v.peers.tail ++ [(p, PeerState.default now)])) ∧
    ((runTrace cfg0 (trFull ++ [eA, eB])).peers.length = MAX_PEERS ∧
     (runTrace cfg0 (trFull ++ [eA, eB])).is_quarantined 1 = true ∧
     (alookup 1 (runTrace cfg0 (trFull ++ [eA, eB])).peers).isSome = true ∧
     alookup 1 (runTrace cfg0 (trFull ++ [eA, eB, eC])).peers = none ∧
     (runTrace cfg0 (trFull ++ [eA, eB, eC])).get_peer_score 1 = FQ.ofInt 0 ∧
     (runTrace cfg0 (trFull ++ [eA, eB, eC])).peer_tokens 1 = FQ.ofInt 100 ∧
     (runTrace cfg0 (trFull ++ [eA, eB, eC])).get_peer_last_seq 1 = none ∧
     (runTrace cfg0 (trFull ++ [eA, eB, eC])).is_quarantined 1 = false ∧
     (runTrace cfg0 (trFull ++ [eA, eB, eC])).get_offence_count 1 = 5) := by
  have h1B : alookup 1 SBForm.peers = some st1 := rfl
  have h1C : alookup 1 SCForm.peers = none := by
    show alookup 1 (floodPeers 997 ++ [(3000, pen0), (3001, pen0), (3002, pen0)]) = none
    rw [alookup_append_of_none 1 _ _ (mid_flood_none_pe 1 (fun i hi => by omega))]
    rfl
  constructor
  · intro v now p h
    show (if (alookup p (if v.peers.length ≥ MAX_PEERS then v.peers.tail
            else v.peers)).isSome
          then (if v.peers.length ≥ MAX_PEERS then v.peers.tail else v.peers)
          else (if v.peers.length ≥ MAX_PEERS then v.peers.tail else v.peers) ++
            [(p, PeerState.default now)]) =
        (if (alookup p v.peers.tail).isSome then v.peers.tail
         else v.peers.tail ++ [(p, PeerState.default now)])
    rw [if_pos h]
  · refine ⟨?_, ?_, ?_, ?_, ?_, ?_, ?_, ?_, ?_⟩
    · rw [SB_trace]
      show ((1, st1) :: (floodPeers 997 ++ [(3000, pen0), (3001, pen0)])).length =
        MAX_PEERS
      simp only [List.length_cons, List.length_nil, List.length_append, floodPeers_len,
        MAX_PEERS]
    · rw [SB_trace, Validator.is_quarantined, h1B]
      rfl
    · rw [SB_trace, h1B]
      rfl
    · rw [SC_trace]
      exact h1C
    · rw [SC_trace, Validator.get_peer_score, h1C]
      rfl
    · rw [SC_trace, Validator.peer_tokens, h1C]
      rfl
    · rw [SC_trace, Validator.get_peer_last_seq, h1C]
      rfl
    · rw [SC_trace, Validator.is_quarantined, h1C]
      rfl
    · rw [SC_trace, Validator.get_offence_count]
      show (alookup 1 ((9, 1) :: (1, 5) ::
        (floodOff 997 ++ [(3000, 1), (3001, 1), (3002, 1)]))).getD 0 = 5
      rfl

end GossipValidator
